import Mathlib

/-!
Verification of the city-to-print geometry/topology pipeline.

The TypeScript sources (src/geometryUtils.ts and the coastline-aware
useOverpassData.ts) are embedded shallowly:

* JS numbers are modelled as rationals (ℚ); every arithmetic operation the
  code performs is exact on the inputs we reason about, and the partial JS
  divisions are only ever reached with nonzero denominators (shown where it
  matters).
* External JS builtins (Math.sqrt, Math.cos of a degree angle, Math.random,
  parseFloat, parseInt) are passed in as explicit function parameters, so the
  embedded definitions stay computable and the theorems quantify over the
  builtin behaviour they actually rely on.
* Unbounded `while` loops that provably terminate because each iteration
  removes one element from a work list are embedded with a fuel argument set
  to the work-list length, which is an upper bound on the number of
  productive iterations, so the fuelled function agrees with the loop.
-/

namespace CityToPrint

/-- A 2D point, as the `Point2D = [number, number]` pairs of the source. -/
abbrev Point : Type := ℚ × ℚ

/-- Geographic bounds `[south, west, north, east]` (types.ts `Bounds`). -/
abbrev Bounds : Type := ℚ × ℚ × ℚ × ℚ

/-! ## Sutherland-Hodgman clipping (geometryUtils.ts `clipPolygon`) -/

/-- Body of the inner `for` loop of `clipPolygon`: given the cyclic
predecessor `prev` and the current vertex `cur`, emit the points pushed to
`output` for this pair. -/
def edgeStep (ins : Point → Bool) (inter : Point → Point → Point)
    (prev cur : Point) : List Point :=
  if ins cur then
    if ins prev then [cur] else [inter prev cur, cur]
  else if ins prev then [inter prev cur] else []

/-- The list whose `i`-th entry is `input[(i + input.length - 1) % input.length]`,
i.e. the cyclic predecessor of each vertex. -/
def cyclicPrevs (l : List Point) : List Point :=
  match l.getLast? with
  | none => []
  | some x => x :: l.dropLast

/-- One pass of `clipPolygon` against a single edge: the source's middle
loop, producing the new `output` from `input`.  (The source's early return
on an empty `output` is the same as running the pass on `[]`.) -/
def clipEdge (ins : Point → Bool) (inter : Point → Point → Point)
    (input : List Point) : List Point :=
  ((cyclicPrevs input).zip input).flatMap (fun pc => edgeStep ins inter pc.1 pc.2)

/-- Left edge test `p[0] >= minX`. -/
def insideLeft (minX : ℚ) (p : Point) : Bool := decide (minX ≤ p.1)

/-- Left edge intersection. -/
def interLeft (minX : ℚ) (a b : Point) : Point :=
  let t := (minX - a.1) / (b.1 - a.1)
  (minX, a.2 + t * (b.2 - a.2))

/-- Right edge test `p[0] <= maxX`. -/
def insideRight (maxX : ℚ) (p : Point) : Bool := decide (p.1 ≤ maxX)

/-- Right edge intersection. -/
def interRight (maxX : ℚ) (a b : Point) : Point :=
  let t := (maxX - a.1) / (b.1 - a.1)
  (maxX, a.2 + t * (b.2 - a.2))

/-- Bottom edge test `p[1] >= minY`. -/
def insideBottom (minY : ℚ) (p : Point) : Bool := decide (minY ≤ p.2)

/-- Bottom edge intersection. -/
def interBottom (minY : ℚ) (a b : Point) : Point :=
  let t := (minY - a.2) / (b.2 - a.2)
  (a.1 + t * (b.1 - a.1), minY)

/-- Top edge test `p[1] <= maxY`. -/
def insideTop (maxY : ℚ) (p : Point) : Bool := decide (p.2 ≤ maxY)

/-- Top edge intersection. -/
def interTop (maxY : ℚ) (a b : Point) : Point :=
  let t := (maxY - a.2) / (b.2 - a.2)
  (a.1 + t * (b.1 - a.1), maxY)

/-- `clipPolygon(poly, minX, minY, maxX, maxY)`: the four passes in source
order (left, right, bottom, top). -/
def clipPolygon (poly : List Point) (minX minY maxX maxY : ℚ) : List Point :=
  clipEdge (insideTop maxY) (interTop maxY)
    (clipEdge (insideBottom minY) (interBottom minY)
      (clipEdge (insideRight maxX) (interRight maxX)
        (clipEdge (insideLeft minX) (interLeft minX) poly)))

/-! ### Clipping lemmas -/

lemma getLast?_mem_self {α : Type} {l : List α} {x : α}
    (h : l.getLast? = some x) : x ∈ l := by
  induction l with
  | nil => simp at h
  | cons a t ih =>
    cases t with
    | nil =>
      simp [List.getLast?] at h
      simp [h]
    | cons b t2 =>
      rw [List.getLast?_cons_cons] at h
      exact List.mem_cons_of_mem _ (ih h)

lemma mem_of_mem_dropLast {α : Type} {l : List α} {x : α}
    (h : x ∈ l.dropLast) : x ∈ l := by
  induction l with
  | nil => simp at h
  | cons a t ih =>
    cases t with
    | nil => simp at h
    | cons b t2 =>
      rw [List.dropLast_cons₂] at h
      rcases List.mem_cons.mp h with rfl | h2
      · exact List.mem_cons_self _ _
      · exact List.mem_cons_of_mem _ (ih h2)

lemma mem_cyclicPrevs {l : List Point} {x : Point}
    (h : x ∈ cyclicPrevs l) : x ∈ l := by
  unfold cyclicPrevs at h
  cases hl : l.getLast? with
  | none => rw [hl] at h; simp at h
  | some y =>
    rw [hl] at h
    rcases List.mem_cons.mp h with rfl | h2
    · exact getLast?_mem_self hl
    · exact mem_of_mem_dropLast h2

lemma mem_edgeStep {ins : Point → Bool} {inter : Point → Point → Point}
    {p c q : Point} (h : q ∈ edgeStep ins inter p c) :
    (q = c ∧ ins c = true) ∨
    (q = inter p c ∧ ins p = true ∧ ins c = false) ∨
    (q = inter p c ∧ ins p = false ∧ ins c = true) := by
  unfold edgeStep at h
  cases hc : ins c <;> cases hp : ins p <;> simp [hc, hp] at h <;> tauto

/-- Soundness scheme for one clipping pass: any property holding for kept
inside vertices and for boundary intersections holds for the whole output. -/
lemma clipEdge_sound {R : Point → Prop} {ins : Point → Bool}
    {inter : Point → Point → Point} {l : List Point}
    (hkeep : ∀ c ∈ l, ins c = true → R c)
    (hinter : ∀ a b, a ∈ l → b ∈ l → ins a ≠ ins b → R (inter a b)) :
    ∀ q ∈ clipEdge ins inter l, R q := by
  intro q hq
  unfold clipEdge at hq
  rw [List.mem_flatMap] at hq
  obtain ⟨pc, hpc, hq⟩ := hq
  have hmem := List.of_mem_zip hpc
  have hp : pc.1 ∈ l := mem_cyclicPrevs hmem.1
  have hc : pc.2 ∈ l := hmem.2
  rcases mem_edgeStep hq with ⟨rfl, h1⟩ | ⟨rfl, h1, h2⟩ | ⟨rfl, h1, h2⟩
  · exact hkeep _ hc h1
  · exact hinter _ _ hp hc (by simp [h1, h2])
  · exact hinter _ _ hp hc (by simp [h1, h2])

/-- The interpolation parameter of an edge intersection lies in `[0, 1]`
whenever the two endpoints straddle the threshold. -/
lemma t_unit {av bv v : ℚ}
    (h : (av ≤ v ∧ v ≤ bv ∧ av < bv) ∨ (bv ≤ v ∧ v ≤ av ∧ bv < av)) :
    0 ≤ (v - av) / (bv - av) ∧ (v - av) / (bv - av) ≤ 1 := by
  have hne : bv - av ≠ 0 := by
    rcases h with ⟨h1, h2, h3⟩ | ⟨h1, h2, h3⟩ <;> intro hq <;> nlinarith
  have key : (v - av) / (bv - av) * (bv - av) = v - av := div_mul_cancel₀ _ hne
  rcases h with ⟨h1, h2, h3⟩ | ⟨h1, h2, h3⟩
  · have hd : 0 < bv - av := by nlinarith
    constructor <;> nlinarith [key]
  · have hd : bv - av < 0 := by nlinarith
    constructor <;> nlinarith [key]

/-- A convex combination of two values in an interval stays in the interval. -/
lemma convex_between {lo hi a b t : ℚ} (ha1 : lo ≤ a) (ha2 : a ≤ hi)
    (hb1 : lo ≤ b) (hb2 : b ≤ hi) (ht0 : 0 ≤ t) (ht1 : t ≤ 1) :
    lo ≤ a + t * (b - a) ∧ a + t * (b - a) ≤ hi := by
  constructor <;> nlinarith

/-- C1.  For every input polygon and every clip rectangle, every vertex of
the polygon returned by `clipPolygon` lies within or exactly on the clip
rectangle `[minX, maxX] × [minY, maxY]`. -/
theorem clipPolygon_vertices_in_rect (poly : List Point)
    (minX minY maxX maxY : ℚ) (q : Point)
    (hq : q ∈ clipPolygon poly minX minY maxX maxY) :
    minX ≤ q.1 ∧ q.1 ≤ maxX ∧ minY ≤ q.2 ∧ q.2 ≤ maxY := by
  unfold clipPolygon at hq
  have h1 : ∀ p ∈ clipEdge (insideLeft minX) (interLeft minX) poly,
      minX ≤ p.1 := by
    apply clipEdge_sound
    · intro c _ hins
      simpa [insideLeft] using hins
    · intro a b _ _ _
      simp [interLeft]
  have h2 : ∀ p ∈ clipEdge (insideRight maxX) (interRight maxX)
      (clipEdge (insideLeft minX) (interLeft minX) poly),
      minX ≤ p.1 ∧ p.1 ≤ maxX := by
    apply clipEdge_sound
    · intro c hc hins
      exact ⟨h1 c hc, by simpa [insideRight] using hins⟩
    · intro a b ha hb hne
      simp only [insideRight, ne_eq, decide_eq_decide] at hne
      have hminmax : minX ≤ maxX := by
        rcases le_or_lt a.1 maxX with hax | hax
        · exact le_trans (h1 a ha) hax
        · have hbx : b.1 ≤ maxX := by
            by_contra hbx
            exact hne (iff_of_false hax.not_le hbx)
          exact le_trans (h1 b hb) hbx
      exact ⟨by simpa [interRight] using hminmax, by simp [interRight]⟩
  have h3 : ∀ p ∈ clipEdge (insideBottom minY) (interBottom minY)
      (clipEdge (insideRight maxX) (interRight maxX)
        (clipEdge (insideLeft minX) (interLeft minX) poly)),
      (minX ≤ p.1 ∧ p.1 ≤ maxX) ∧ minY ≤ p.2 := by
    apply clipEdge_sound
    · intro c hc hins
      exact ⟨h2 c hc, by simpa [insideBottom] using hins⟩
    · intro a b ha hb hne
      simp only [insideBottom, ne_eq, decide_eq_decide] at hne
      have hstr : (a.2 ≤ minY ∧ minY ≤ b.2 ∧ a.2 < b.2) ∨
          (b.2 ≤ minY ∧ minY ≤ a.2 ∧ b.2 < a.2) := by
        rcases le_or_lt minY a.2 with h | h
        · have hb2 : b.2 < minY := by
            by_contra hb2
            exact hne (iff_of_true h (le_of_not_lt hb2))
          exact Or.inr ⟨hb2.le, h, lt_of_lt_of_le hb2 h⟩
        · have hb2 : minY ≤ b.2 := by
            by_contra hb2
            exact hne (iff_of_false h.not_le hb2)
          exact Or.inl ⟨h.le, hb2, lt_of_lt_of_le h hb2⟩
      obtain ⟨ht0, ht1⟩ := t_unit hstr
      have hconv := convex_between (h2 a ha).1 (h2 a ha).2 (h2 b hb).1 (h2 b hb).2 ht0 ht1
      exact ⟨by simpa [interBottom] using hconv, by simp [interBottom]⟩
  have h4 : ∀ p ∈ clipEdge (insideTop maxY) (interTop maxY)
      (clipEdge (insideBottom minY) (interBottom minY)
        (clipEdge (insideRight maxX) (interRight maxX)
          (clipEdge (insideLeft minX) (interLeft minX) poly))),
      (minX ≤ p.1 ∧ p.1 ≤ maxX) ∧ (minY ≤ p.2 ∧ p.2 ≤ maxY) := by
    apply clipEdge_sound
    · intro c hc hins
      exact ⟨(h3 c hc).1, (h3 c hc).2, by simpa [insideTop] using hins⟩
    · intro a b ha hb hne
      simp only [insideTop, ne_eq, decide_eq_decide] at hne
      have hstr2 : ((a.2 ≤ maxY ∧ maxY ≤ b.2 ∧ a.2 < b.2) ∨
          (b.2 ≤ maxY ∧ maxY ≤ a.2 ∧ b.2 < a.2)) ∧ minY ≤ maxY := by
        rcases le_or_lt a.2 maxY with h | h
        · have hb2 : maxY < b.2 := by
            by_contra hb2
            exact hne (iff_of_true h (le_of_not_lt hb2))
          exact ⟨Or.inl ⟨h, hb2.le, lt_of_le_of_lt h hb2⟩, le_trans (h3 a ha).2 h⟩
        · have hb2 : b.2 ≤ maxY := by
            by_contra hb2
            exact hne (iff_of_false h.not_le hb2)
          exact ⟨Or.inr ⟨hb2, h.le, lt_of_le_of_lt hb2 h⟩, le_trans (h3 b hb).2 hb2⟩
      obtain ⟨ht0, ht1⟩ := t_unit hstr2.1
      have hconv := convex_between (h3 a ha).1.1 (h3 a ha).1.2
        (h3 b hb).1.1 (h3 b hb).1.2 ht0 ht1
      exact ⟨by simpa [interTop] using hconv, ⟨hstr2.2, by simp [interTop]⟩⟩
  obtain ⟨⟨a1, a2⟩, a3, a4⟩ := h4 q hq
  exact ⟨a1, a2, a3, a4⟩

/-- Witness for C1 at a concrete input. -/
theorem clipPolygon_vertices_in_rect_witness :
    (0 : ℚ) ≤ (((0 : ℚ), (0 : ℚ)) : Point).1 ∧
      (((0 : ℚ), (0 : ℚ)) : Point).1 ≤ 1 ∧
      (0 : ℚ) ≤ (((0 : ℚ), (0 : ℚ)) : Point).2 ∧
      (((0 : ℚ), (0 : ℚ)) : Point).2 ≤ 1 :=
  clipPolygon_vertices_in_rect [((0 : ℚ), (0 : ℚ))] 0 0 1 1
    ((0 : ℚ), (0 : ℚ)) (by decide)

lemma flatMap_congr_mem {α β : Type} {l : List α} {f g : α → List β}
    (h : ∀ x ∈ l, f x = g x) : l.flatMap f = l.flatMap g := by
  induction l with
  | nil => rfl
  | cons a t ih =>
    simp only [List.flatMap_cons]
    rw [h a (List.mem_cons_self _ _), ih (fun x hx => h x (List.mem_cons_of_mem _ hx))]

lemma flatMap_singleton_eq_map {α β : Type} (f : α → β) (l : List α) :
    (l.flatMap fun x => [f x]) = l.map f := by
  induction l with
  | nil => rfl
  | cons a t ih => simp only [List.flatMap_cons, ih]; rfl

lemma cyclicPrevs_length (l : List Point) : (cyclicPrevs l).length = l.length := by
  unfold cyclicPrevs
  cases hl : l.getLast? with
  | none => simp [List.getLast?_eq_none_iff.mp hl]
  | some x =>
    have hne : l ≠ [] := by
      intro h
      rw [h] at hl
      simp at hl
    have hpos := List.length_pos.mpr hne
    simp only [List.length_cons, List.length_dropLast]
    omega

lemma zip_cyclicPrevs_map_snd (l : List Point) :
    ((cyclicPrevs l).zip l).map Prod.snd = l :=
  List.map_snd_zip _ _ (le_of_eq (cyclicPrevs_length l).symm)

/-- If every vertex passes the edge test, the pass is the identity. -/
lemma clipEdge_of_all_inside {ins : Point → Bool} {inter : Point → Point → Point}
    {l : List Point} (h : ∀ p ∈ l, ins p = true) :
    clipEdge ins inter l = l := by
  unfold clipEdge
  have hstep : ∀ pc ∈ (cyclicPrevs l).zip l,
      edgeStep ins inter pc.1 pc.2 = [pc.2] := by
    intro pc hpc
    have hmem := List.of_mem_zip hpc
    have hp := h _ (mem_cyclicPrevs hmem.1)
    have hc := h _ hmem.2
    simp [edgeStep, hp, hc]
  rw [flatMap_congr_mem hstep, flatMap_singleton_eq_map, zip_cyclicPrevs_map_snd]

/-- C7.  A polygon whose vertices all lie strictly inside the clip rectangle
is returned unchanged, point for point and in order. -/
theorem clipPolygon_noop_of_strictly_inside (poly : List Point)
    (minX minY maxX maxY : ℚ)
    (h : ∀ p ∈ poly, minX < p.1 ∧ p.1 < maxX ∧ minY < p.2 ∧ p.2 < maxY) :
    clipPolygon poly minX minY maxX maxY = poly := by
  unfold clipPolygon
  have e1 : clipEdge (insideLeft minX) (interLeft minX) poly = poly :=
    clipEdge_of_all_inside (fun p hp => by
      simp [insideLeft]; exact (h p hp).1.le)
  rw [e1]
  have e2 : clipEdge (insideRight maxX) (interRight maxX) poly = poly :=
    clipEdge_of_all_inside (fun p hp => by
      simp [insideRight]; exact (h p hp).2.1.le)
  rw [e2]
  have e3 : clipEdge (insideBottom minY) (interBottom minY) poly = poly :=
    clipEdge_of_all_inside (fun p hp => by
      simp [insideBottom]; exact (h p hp).2.2.1.le)
  rw [e3]
  exact clipEdge_of_all_inside (fun p hp => by
    simp [insideTop]; exact (h p hp).2.2.2.le)

/-- Witness for C7 at a concrete triangle strictly inside the rectangle. -/
theorem clipPolygon_noop_of_strictly_inside_witness :
    clipPolygon [((1 : ℚ), (1 : ℚ)), (2, 1), (2, 2)] 0 0 3 3
      = [((1 : ℚ), (1 : ℚ)), (2, 1), (2, 2)] :=
  clipPolygon_noop_of_strictly_inside _ 0 0 3 3 (by decide)

/-! ## Line buffering (geometryUtils.ts `bufferLineToPolygon`)

`Math.sqrt` is an external builtin: it is passed in as the parameter
`sqrtFn`.  Everything the claims need of it is pinned by hypotheses
(`sqrtFn 0 = 0`, which is exact for the real square root). -/

/-- JS `x || 1` on the reachable values (square roots of nonnegative
rationals, where the only falsy value is `0`): the floor the source applies
to a segment length before dividing by it. -/
def jsOr1 (s : ℚ) : ℚ := if s = 0 then 1 else s

/-- The unit normal of the segment `a → b`: `(-dy, dx) / (‖(dx, dy)‖ || 1)`. -/
def segNormal (sqrtFn : ℚ → ℚ) (a b : Point) : Point :=
  let dx := b.1 - a.1
  let dy := b.2 - a.2
  let len := jsOr1 (sqrtFn (dx * dx + dy * dy))
  (-dy / len, dx / len)

/-- The per-vertex offset normal of `bufferLineToPolygon`: endpoints use the
single adjacent segment, interior vertices average the two adjacent segment
normals and renormalize (again with the `|| 1` floor). -/
def vertexNormal (sqrtFn : ℚ → ℚ) (line : List Point) (i : ℕ) : Point :=
  let pt := fun j => line.getD j (0, 0)
  if i = 0 then segNormal sqrtFn (pt 0) (pt 1)
  else if i = line.length - 1 then segNormal sqrtFn (pt (i - 1)) (pt i)
  else
    let n1 := segNormal sqrtFn (pt (i - 1)) (pt i)
    let n2 := segNormal sqrtFn (pt i) (pt (i + 1))
    let nx := (n1.1 + n2.1) / 2
    let ny := (n1.2 + n2.2) / 2
    let nlen := jsOr1 (sqrtFn (nx * nx + ny * ny))
    (nx / nlen, ny / nlen)

/-- `bufferLineToPolygon(line, halfWidthMm)`: offset every vertex by
`±halfWidth` along its normal; result is the left rail followed by the
reversed right rail. -/
def bufferLineToPolygon (sqrtFn : ℚ → ℚ) (line : List Point)
    (halfWidthMm : ℚ) : List Point :=
  if line.length < 2 then [] else
  let pt := fun j => line.getD j (0, 0)
  let left := (List.range line.length).map (fun i =>
    let n := vertexNormal sqrtFn line i
    ((pt i).1 + n.1 * halfWidthMm, (pt i).2 + n.2 * halfWidthMm))
  let right := (List.range line.length).map (fun i =>
    let n := vertexNormal sqrtFn line i
    ((pt i).1 - n.1 * halfWidthMm, (pt i).2 - n.2 * halfWidthMm))
  left ++ right.reverse

/-- A computable stand-in for `Math.sqrt`, exact on perfect squares — in
particular `ratSqrt 0 = 0`, the only query made by the degenerate-segment
computations below. -/
def ratSqrt (q : ℚ) : ℚ := (Nat.sqrt q.num.toNat : ℚ) / (Nat.sqrt q.den : ℚ)

lemma ratSqrt_zero : ratSqrt 0 = 0 := by
  simp [ratSqrt]

/-- C6 counterexample: a 2-point polyline consisting of one zero-length
segment does **not** buffer to the empty polygon — it yields the degenerate
4-gon `[p, p, p, p]` (the `|| 1` floor kicks in instead). -/
theorem bufferLineToPolygon_zero_segment_cex :
    bufferLineToPolygon ratSqrt [((2 : ℚ), (3 : ℚ)), (2, 3)] 1
        = [((2 : ℚ), (3 : ℚ)), (2, 3), (2, 3), (2, 3)] ∧
      bufferLineToPolygon ratSqrt [((2 : ℚ), (3 : ℚ)), (2, 3)] 1 ≠ [] := by
  have h : bufferLineToPolygon ratSqrt [((2 : ℚ), (3 : ℚ)), (2, 3)] 1
      = [((2 : ℚ), (3 : ℚ)), (2, 3), (2, 3), (2, 3)] := by
    unfold bufferLineToPolygon
    norm_num [vertexNormal, segNormal, jsOr1, ratSqrt_zero, List.range_succ]
  refine ⟨h, ?_⟩
  rw [h]
  simp

/-- C6 (amended).  A polyline with fewer than 2 points yields the empty
polygon; the `|| 1` floor is never zero so no division by zero ever occurs;
but a zero-length segment does not give an empty polygon: a doubled point
buffers to the degenerate 4-gon `[p, p, p, p]`. -/
theorem bufferLineToPolygon_degenerate (sqrtFn : ℚ → ℚ) (line : List Point)
    (hw : ℚ) (p : Point) (s : ℚ) (hlt : line.length < 2) (h0 : sqrtFn 0 = 0) :
    bufferLineToPolygon sqrtFn line hw = [] ∧
      jsOr1 s ≠ 0 ∧
      bufferLineToPolygon sqrtFn [p, p] hw = [p, p, p, p] := by
  refine ⟨?_, ?_, ?_⟩
  · unfold bufferLineToPolygon
    simp [hlt]
  · unfold jsOr1
    split
    · exact one_ne_zero
    · assumption
  · unfold bufferLineToPolygon
    norm_num [vertexNormal, segNormal, jsOr1, h0, List.range_succ]

/-- Witness for C6 at concrete inputs. -/
theorem bufferLineToPolygon_degenerate_witness :
    bufferLineToPolygon ratSqrt [((5 : ℚ), (7 : ℚ))] 3 = [] ∧
      jsOr1 0 ≠ 0 ∧
      bufferLineToPolygon ratSqrt [((4 : ℚ), (9 : ℚ)), (4, 9)] 3
        = [((4 : ℚ), (9 : ℚ)), (4, 9), (4, 9), (4, 9)] :=
  bufferLineToPolygon_degenerate ratSqrt [((5 : ℚ), (7 : ℚ))] 3
    ((4 : ℚ), (9 : ℚ)) 0 (by decide) ratSqrt_zero

/-! ## Ring assembly (useOverpassData.ts `assembleRings`) -/

/-- OSM tag sets, `Record<string, string>`: a lookup that misses gives
`none` (JS `undefined`). -/
def Tags : Type := String → Option String

/-- A raw OSM way: id, node-id list, optional tag set. -/
structure OsmWay where
  id : ℕ
  nodes : List ℕ
  tags : Option Tags

/-- One scan of the matching loop in `assembleRings`: find the first segment
in the pool whose head (or, failing that, tail) equals the chain's tail;
return the extended chain and the pool with the match removed.  Comparisons
are on `Option ℕ` so the empty-list cases agree with JS
(`undefined === undefined`). -/
def findMatch (chain : List ℕ) : List (List ℕ) → Option (List ℕ × List (List ℕ))
  | [] => none
  | seg :: rest =>
    if chain.getLast? = seg.head? then some (chain ++ seg.drop 1, rest)
    else if chain.getLast? = seg.getLast? then
      some (chain ++ seg.reverse.drop 1, rest)
    else (findMatch chain rest).map (fun pr => (pr.1, seg :: pr.2))

/-- The `while (changed && chain[0] !== chain[last])` loop of
`assembleRings`.  Each productive iteration removes one segment from the
pool, so fuel = pool size makes the fuelled recursion agree with the loop. -/
def extendChain : ℕ → List ℕ → List (List ℕ) → List ℕ × List (List ℕ)
  | 0, chain, rem => (chain, rem)
  | fuel + 1, chain, rem =>
    if chain.head? = chain.getLast? then (chain, rem)
    else
      match findMatch chain rem with
      | none => (chain, rem)
      | some (c2, r2) => extendChain fuel c2 r2

/-- The outer `while (remaining.length > 0)` loop: pop one way, extend it
into a chain.  Fuel = pool size again bounds the iterations. -/
def assembleChains : ℕ → List (List ℕ) → List (List ℕ)
  | 0, _ => []
  | _, [] => []
  | fuel + 1, chain :: rest =>
    let p := extendChain rest.length chain rest
    p.1 :: assembleChains fuel p.2

/-- Resolve a list of node ids to coordinates, failing if any id misses the
lookup table. -/
def resolveCoords (nodeMap : ℕ → Option Point) : List ℕ → Option (List Point)
  | [] => some []
  | n :: rest =>
    match nodeMap n, resolveCoords nodeMap rest with
    | some p, some ps => some (p :: ps)
    | _, _ => none

/-- Resolve a finished chain: discarded if any node id is unresolvable or
fewer than 3 coordinates result. -/
def resolveChain (nodeMap : ℕ → Option Point) (chain : List ℕ) :
    Option (List Point) :=
  match resolveCoords nodeMap chain with
  | none => none
  | some coords => if 3 ≤ coords.length then some coords else none

/-- `assembleRings(memberWays, nodeMap)`. -/
def assembleRings (memberWays : List OsmWay) (nodeMap : ℕ → Option Point) :
    List (List Point) :=
  let remaining := memberWays.map (fun w => w.nodes)
  (assembleChains remaining.length remaining).filterMap (resolveChain nodeMap)

/-- `findMatch` removes exactly one segment from the pool when it succeeds
(this is the bound that justifies the fuel value). -/
lemma findMatch_snd_length {chain : List ℕ} :
    ∀ {rem : List (List ℕ)} {pr}, findMatch chain rem = some pr →
      pr.2.length + 1 = rem.length := by
  intro rem
  induction rem with
  | nil => intro pr h; simp [findMatch] at h
  | cons seg rest ih =>
    intro pr h
    unfold findMatch at h
    split at h
    · cases h; simp
    · split at h
      · cases h; simp
      · rw [Option.map_eq_some'] at h
        obtain ⟨pr2, hpr2, rfl⟩ := h
        have := ih hpr2
        simp only [List.length_cons]
        omega

/-- The pool never grows across `extendChain`. -/
lemma extendChain_rem_le :
    ∀ (fuel : ℕ) (chain : List ℕ) (rem : List (List ℕ)),
      (extendChain fuel chain rem).2.length ≤ rem.length := by
  intro fuel
  induction fuel with
  | zero => intro chain rem; simp [extendChain]
  | succ f ih =>
    intro chain rem
    unfold extendChain
    split
    · simp
    · cases hfm : findMatch chain rem with
      | none => simp
      | some pr =>
        obtain ⟨c2, r2⟩ := pr
        have h1 := findMatch_snd_length hfm
        have h2 := ih c2 r2
        simp only at h1 ⊢
        omega

/-- C3 counterexample: with `[C,D,A]` listed first, the assembled ring is
`[C,D,A,B,C]`, a rotation of — but not equal to — the coordinate sequence
`[A,B,C,D,A]`.  Node ids: A=1, B=2, C=3, D=4, node i at `(i, 0)`. -/
theorem assembleRings_order_cex :
    assembleRings [⟨10, [3, 4, 1], none⟩, ⟨11, [1, 2, 3], none⟩]
        (fun n => if n = 1 then some ((1 : ℚ), 0) else if n = 2 then some (2, 0)
          else if n = 3 then some (3, 0) else if n = 4 then some (4, 0) else none)
      = [[((3 : ℚ), 0), (4, 0), (1, 0), (2, 0), (3, 0)]] ∧
    [[((3 : ℚ), 0), (4, 0), (1, 0), (2, 0), (3, 0)]]
      ≠ [[((1 : ℚ), 0), (2, 0), (3, 0), (4, 0), (1, 0)]] := by
  constructor <;> decide

/-- C3 (amended).  For fragments `[A,B,C]` and `[C,D,A]` with `A ≠ C` and
all four nodes resolvable, `assembleRings` produces exactly one closed ring
for either input order; the ring starts at the first fragment's head:
`[A,B,C,D,A]` in one order and the rotation `[C,D,A,B,C]` in the other. -/
theorem assembleRings_two_fragments (a b c d : ℕ) (nm : ℕ → Option Point)
    (pa pb pc pd : Point) (w1 w2 : OsmWay) (hac : a ≠ c)
    (hw1 : w1.nodes = [a, b, c]) (hw2 : w2.nodes = [c, d, a])
    (ha : nm a = some pa) (hb : nm b = some pb)
    (hc : nm c = some pc) (hd : nm d = some pd) :
    assembleRings [w1, w2] nm = [[pa, pb, pc, pd, pa]] ∧
      assembleRings [w2, w1] nm = [[pc, pd, pa, pb, pc]] := by
  have hca : c ≠ a := fun h => hac h.symm
  constructor
  · simp [assembleRings, assembleChains, extendChain, findMatch, resolveChain,
      resolveCoords, List.filterMap_cons, hw1, hw2, hac, ha, hb, hc, hd]
  · simp [assembleRings, assembleChains, extendChain, findMatch, resolveChain,
      resolveCoords, List.filterMap_cons, hw1, hw2, hca, ha, hb, hc, hd]

/-- Witness for C3 at concrete node ids and coordinates. -/
theorem assembleRings_two_fragments_witness :
    assembleRings [⟨0, [1, 2, 3], none⟩, ⟨1, [3, 4, 1], none⟩]
        (fun n => if n = 1 then some ((1 : ℚ), 0) else if n = 2 then some (2, 0)
          else if n = 3 then some (3, 0) else if n = 4 then some (4, 0) else none)
        = [[((1 : ℚ), 0), (2, 0), (3, 0), (4, 0), (1, 0)]] ∧
      assembleRings [⟨0, [3, 4, 1], none⟩, ⟨1, [1, 2, 3], none⟩]
        (fun n => if n = 1 then some ((1 : ℚ), 0) else if n = 2 then some (2, 0)
          else if n = 3 then some (3, 0) else if n = 4 then some (4, 0) else none)
        = [[((3 : ℚ), 0), (4, 0), (1, 0), (2, 0), (3, 0)]] :=
  assembleRings_two_fragments 1 2 3 4 _ ((1 : ℚ), 0) (2, 0) (3, 0) (4, 0)
    ⟨0, [1, 2, 3], Option.none⟩ ⟨1, [3, 4, 1], Option.none⟩
    (by decide) rfl rfl (by decide) (by decide) (by decide) (by decide)

/-! ## Projection and scale (geometryUtils.ts) -/

/-- `MODEL_SIZE_MM = 200`: fixed physical footprint. -/
def MODEL_SIZE_MM : ℚ := 200

/-- `BASE_THICKNESS_MM = 4`. -/
def BASE_THICKNESS_MM : ℚ := 4

/-- `MAX_BUILDING_HEIGHT_MM = 40`. -/
def MAX_BUILDING_HEIGHT_MM : ℚ := 40

/-- `latLonToLocalMetres(lat, lon, bounds)`.  The builtin composite
`Math.cos((centLat * Math.PI) / 180)` — cosine of a latitude given in
degrees — is the parameter `cosDeg` applied to `centLat`. -/
def latLonToLocalMetres (cosDeg : ℚ → ℚ) (lat lon : ℚ) (bounds : Bounds) :
    ℚ × ℚ :=
  let south := bounds.1
  let west := bounds.2.1
  let north := bounds.2.2.1
  let east := bounds.2.2.2
  let centLat := (south + north) / 2
  let centLon := (west + east) / 2
  let mPerDegLat : ℚ := 111320
  let mPerDegLon := 111320 * cosDeg centLat
  ((lon - centLon) * mPerDegLon, (lat - centLat) * mPerDegLat)

/-- Result record of `computeScale`. -/
structure ScaleResult where
  scaleMMperM : ℚ
  realWidthM : ℚ
  realHeightM : ℚ
  modelWidthMm : ℚ
  modelDepthMm : ℚ
deriving DecidableEq

/-- `computeScale(bounds)` from geometryUtils.ts. -/
def computeScale (cosDeg : ℚ → ℚ) (bounds : Bounds) : ScaleResult :=
  let south := bounds.1
  let west := bounds.2.1
  let north := bounds.2.2.1
  let east := bounds.2.2.2
  let w := (latLonToLocalMetres cosDeg south east bounds).1
  let h := (latLonToLocalMetres cosDeg north west bounds).2
  let realWidthM := |w| * 2
  let realHeightM := |h| * 2
  let maxDim := max realWidthM realHeightM
  let scaleMMperM := if 0 < maxDim then MODEL_SIZE_MM / maxDim else 1
  ⟨scaleMMperM, realWidthM, realHeightM,
    realWidthM * scaleMMperM, realHeightM * scaleMMperM⟩

/-- The two-argument call `computeScale(bounds, bearing)` made by
`parseElements`: the implementation takes a single parameter, so the extra
bearing argument is discarded (JS call semantics). -/
def computeScaleWithBearing (cosDeg : ℚ → ℚ) (bounds : Bounds)
    (bearing : ℚ) : ScaleResult :=
  computeScale cosDeg bounds

/-- Modelled from the spec: the bearing-accounted real-world extents (§4.1,
"after accounting for bearing if the physical bed is rotated relative to
north") — the axis-aligned extents of the selection rectangle rotated by
the bearing, where `cosB`/`sinB` stand for `Math.cos`/`Math.sin` of the
bearing.  No implementation of this exists under src/; it is used only for
comparison against the implemented `computeScale`. -/
def bearingExtents (cosDeg : ℚ → ℚ) (bounds : Bounds) (cosB sinB : ℚ) :
    ℚ × ℚ :=
  let r := computeScale cosDeg bounds
  (r.realWidthM * |cosB| + r.realHeightM * |sinB|,
    r.realWidthM * |sinB| + r.realHeightM * |cosB|)

/-- The stored scale equals the guarded quotient of the stored extents. -/
lemma computeScale_scaleMMperM (cosDeg : ℚ → ℚ) (bounds : Bounds) :
    (computeScale cosDeg bounds).scaleMMperM =
      if 0 < max (computeScale cosDeg bounds).realWidthM
          (computeScale cosDeg bounds).realHeightM
      then MODEL_SIZE_MM / max (computeScale cosDeg bounds).realWidthM
          (computeScale cosDeg bounds).realHeightM
      else 1 := rfl

/-- C4 counterexample, at the degenerate-line selection
`bounds = (0, 0, 1, 0)` (south = north-less? no: south 0, west 0, north 1,
east 0 — zero east-west extent, so zero area).  The returned scale is
`200 / 111320 ≠ 1` even though the selection has zero area, and it also
differs from `200 / max(bearing-accounted extents)` at a bearing whose
cosine/sine are `3/5`/`4/5`. -/
theorem computeScale_zero_area_cex :
    ((computeScaleWithBearing (fun _ => 1) ((0 : ℚ), 0, 1, 0) 53).realWidthM
        * (computeScaleWithBearing (fun _ => 1) ((0 : ℚ), 0, 1, 0) 53).realHeightM
        = 0) ∧
      (computeScaleWithBearing (fun _ => 1) ((0 : ℚ), 0, 1, 0) 53).scaleMMperM ≠ 1 ∧
      (computeScaleWithBearing (fun _ => 1) ((0 : ℚ), 0, 1, 0) 53).scaleMMperM
        ≠ MODEL_SIZE_MM /
            max (bearingExtents (fun _ => 1) ((0 : ℚ), 0, 1, 0) (3 / 5) (4 / 5)).1
              (bearingExtents (fun _ => 1) ((0 : ℚ), 0, 1, 0) (3 / 5) (4 / 5)).2 := by
  norm_num [computeScaleWithBearing, computeScale, latLonToLocalMetres,
    bearingExtents, MODEL_SIZE_MM, abs_of_nonneg]

/-- C4 (amended).  `computeScale` ignores the bearing argument entirely;
for every bounds it returns `scale = 200 / max(width, height)` of the
axis-aligned selection whenever that max is positive, and `scale = 1`
exactly when `max(width, height) = 0` (a point-degenerate selection) — not
for every zero-area selection. -/
theorem computeScale_scale_formula (cosDeg : ℚ → ℚ) (bounds : Bounds)
    (bearing : ℚ) :
    computeScaleWithBearing cosDeg bounds bearing = computeScale cosDeg bounds ∧
      (0 < max (computeScale cosDeg bounds).realWidthM
          (computeScale cosDeg bounds).realHeightM →
        (computeScale cosDeg bounds).scaleMMperM
          = MODEL_SIZE_MM / max (computeScale cosDeg bounds).realWidthM
              (computeScale cosDeg bounds).realHeightM) ∧
      (max (computeScale cosDeg bounds).realWidthM
          (computeScale cosDeg bounds).realHeightM = 0 →
        (computeScale cosDeg bounds).scaleMMperM = 1) := by
  refine ⟨rfl, ?_, ?_⟩
  · intro h
    rw [computeScale_scaleMMperM, if_pos h]
  · intro h
    rw [computeScale_scaleMMperM, if_neg (by rw [h]; exact lt_irrefl 0)]

/-- Witness for C4: the formula at a line selection and the guard at a
point selection. -/
theorem computeScale_scale_formula_witness :
    computeScaleWithBearing (fun _ => (1 : ℚ)) ((0 : ℚ), 0, 1, 0) 7
        = computeScale (fun _ => 1) ((0 : ℚ), 0, 1, 0) ∧
      (computeScale (fun _ => (1 : ℚ)) ((0 : ℚ), 0, 1, 0)).scaleMMperM = 5 / 2783 ∧
      (computeScale (fun _ => (1 : ℚ)) ((0 : ℚ), 0, 0, 0)).scaleMMperM = 1 := by
  have h1 := computeScale_scale_formula (fun _ => (1 : ℚ)) ((0 : ℚ), 0, 1, 0) 7
  have h2 := computeScale_scale_formula (fun _ => (1 : ℚ)) ((0 : ℚ), 0, 0, 0) 7
  have hmax : max (computeScale (fun _ => (1 : ℚ)) ((0 : ℚ), 0, 1, 0)).realWidthM
      (computeScale (fun _ => (1 : ℚ)) ((0 : ℚ), 0, 1, 0)).realHeightM = 111320 := by
    norm_num [computeScale, latLonToLocalMetres, abs_of_nonneg]
  have hmax0 : max (computeScale (fun _ => (1 : ℚ)) ((0 : ℚ), 0, 0, 0)).realWidthM
      (computeScale (fun _ => (1 : ℚ)) ((0 : ℚ), 0, 0, 0)).realHeightM = 0 := by
    norm_num [computeScale, latLonToLocalMetres]
  refine ⟨h1.1, ?_, h2.2.2 hmax0⟩
  rw [h1.2.1 (by rw [hmax]; norm_num), hmax]
  norm_num [ MODEL_SIZE_MM]

/-! ## Building heights (geometryUtils.ts `buildingHeightMm`) -/

/-- JS truthiness of a tag lookup: present and not the empty string. -/
def jsTruthy (v : Option String) : Bool :=
  match v with
  | some s => decide (s ≠ "")
  | none => false

/-- Tag keys used by the pipeline (named so the embedding can apply tag
functions to them). -/
def kHeight : String := "height"

def kLevels : String := "building:levels"

/-- `buildingHeightMm(tags, scaleMMperM)`.  `parseFloat` and
`parseInt(·, 10)` are the parameters `pf`/`pint` (`none` models `NaN`);
`rnd` is the `Math.random()` draw consumed by the fallback branch. -/
def buildingHeightMm (pf : String → Option ℚ) (pint : String → Option ℤ)
    (rnd : ℚ) (tags : Tags) (scaleMMperM : ℚ) : ℚ :=
  let metres :=
    if jsTruthy (tags kHeight) then
      match tags kHeight with
      | some v => match pf v with
        | some m => m
        | none => 10
      | none => 10
    else if jsTruthy (tags kLevels) then
      (match tags kLevels with
        | some v => match pint v with
          | some l => (l : ℚ)
          | none => 3
        | none => 3) * 3
    else 6 + rnd * 12
  min (metres * scaleMMperM) MAX_BUILDING_HEIGHT_MM

/-- C10: for every tag set, every scale factor (and any builtin behaviour
and random draw) the building height is clamped to
`MAX_BUILDING_HEIGHT_MM = 40`. -/
theorem buildingHeightMm_le_max (pf : String → Option ℚ)
    (pint : String → Option ℤ) (rnd : ℚ) (tags : Tags) (scaleMMperM : ℚ) :
    buildingHeightMm pf pint rnd tags scaleMMperM ≤ MAX_BUILDING_HEIGHT_MM ∧
      MAX_BUILDING_HEIGHT_MM = 40 := by
  constructor
  · unfold buildingHeightMm
    exact min_le_right _ _
  · rfl

/-! ## Feature classification (coastline-aware useOverpassData.ts `classify`) -/

def kBuilding : String := "building"

def kNatural : String := "natural"

def kWaterway : String := "waterway"

def kLanduse : String := "landuse"

def kHighway : String := "highway"

def kRailway : String := "railway"

def kType : String := "type"

def vCoastline : String := "coastline"

def vWater : String := "water"

def vBay : String := "bay"

def vReservoir : String := "reservoir"

def vWaterwayRel : String := "waterway"

def vStream : String := "stream"

def vPlatform : String := "platform"

def vYes : String := "yes"

/-- The feature classes `classify` can produce (`null` is `none`). -/
inductive FeatureKind where
  | building
  | coastline
  | water
  | road
  | railway
  | none
deriving DecidableEq

/-- `classify(tags)` from the coastline-aware `parseElements`: note the
source tests `natural === "coastline"` **before** the water tags, and
accepts any truthy `railway` value. -/
def classify (tags : Option Tags) : FeatureKind :=
  match tags with
  | Option.none => FeatureKind.none
  | some t =>
    if jsTruthy (t kBuilding) then FeatureKind.building
    else if t kNatural = some vCoastline then FeatureKind.coastline
    else if t kNatural = some vWater ∨ t kNatural = some vBay ∨
        jsTruthy (t kWaterway) = true ∨ t kLanduse = some vReservoir then
      FeatureKind.water
    else if jsTruthy (t kHighway) then FeatureKind.road
    else if jsTruthy (t kRailway) then FeatureKind.railway
    else FeatureKind.none

/-- C5 counterexample.  (1) A tag set with both `natural=coastline` and
`waterway=stream` classifies as coastline, not water — coastline outranks
water in the code, contrary to the claimed precedence.  (2) `railway=platform`
classifies as railway even though `platform` is not one of the claimed
passenger/freight subtypes — the classifier does not restrict subtypes
(the Overpass query regex does). -/
theorem classify_precedence_cex :
    classify (some (fun k => if k = kNatural then some vCoastline
        else if k = kWaterway then some vStream else Option.none))
      = FeatureKind.coastline ∧
    FeatureKind.coastline ≠ FeatureKind.water ∧
    classify (some (fun k => if k = kRailway then some vPlatform
        else Option.none)) = FeatureKind.railway ∧
    ¬(vPlatform = "rail" ∨ vPlatform = "light_rail" ∨ vPlatform = "subway" ∨
      vPlatform = "tram" ∨ vPlatform = "narrow_gauge" ∨
      vPlatform = "monorail") := by
  refine ⟨by decide, by decide, by decide, by decide⟩

/-- C5 (amended).  The classifier precedence is
building > coastline > water (natural=water, natural=bay, waterway=*,
landuse=reservoir) > road (highway=*) > railway (any truthy railway=*
value; the subtype restriction lives in the Overpass query, not here) >
none; whenever the tags of a higher class are present the classifier
returns that class regardless of lower-precedence tags, and an untagged or
unmatched element classifies as none. -/
theorem classify_precedence (t : Tags) :
    (jsTruthy (t kBuilding) = true → classify (some t) = FeatureKind.building) ∧
    (jsTruthy (t kBuilding) = false → t kNatural = some vCoastline →
      classify (some t) = FeatureKind.coastline) ∧
    (jsTruthy (t kBuilding) = false → t kNatural ≠ some vCoastline →
      (t kNatural = some vWater ∨ t kNatural = some vBay ∨
        jsTruthy (t kWaterway) = true ∨ t kLanduse = some vReservoir) →
      classify (some t) = FeatureKind.water) ∧
    (jsTruthy (t kBuilding) = false → t kNatural ≠ some vCoastline →
      ¬(t kNatural = some vWater ∨ t kNatural = some vBay ∨
        jsTruthy (t kWaterway) = true ∨ t kLanduse = some vReservoir) →
      jsTruthy (t kHighway) = true → classify (some t) = FeatureKind.road) ∧
    (jsTruthy (t kBuilding) = false → t kNatural ≠ some vCoastline →
      ¬(t kNatural = some vWater ∨ t kNatural = some vBay ∨
        jsTruthy (t kWaterway) = true ∨ t kLanduse = some vReservoir) →
      jsTruthy (t kHighway) = false → jsTruthy (t kRailway) = true →
      classify (some t) = FeatureKind.railway) ∧
    (jsTruthy (t kBuilding) = false → t kNatural ≠ some vCoastline →
      ¬(t kNatural = some vWater ∨ t kNatural = some vBay ∨
        jsTruthy (t kWaterway) = true ∨ t kLanduse = some vReservoir) →
      jsTruthy (t kHighway) = false → jsTruthy (t kRailway) = false →
      classify (some t) = FeatureKind.none) ∧
    classify Option.none = FeatureKind.none := by
  refine ⟨?_, ?_, ?_, ?_, ?_, ?_, rfl⟩
  · intro h1
    simp [classify, h1]
  · intro h1 h2
    simp [classify, h1, h2]
  · intro h1 h2 h3
    simp only [classify, h1, Bool.false_eq_true, if_false, h2, if_true, if_pos h3]
  · intro h1 h2 h3 h4
    simp only [classify, h1, Bool.false_eq_true, if_false, h2, if_neg h3, h4, if_true]
  · intro h1 h2 h3 h4 h5
    simp only [classify, h1, h4, Bool.false_eq_true, if_false, h2, if_neg h3, h5,
      if_true]
  · intro h1 h2 h3 h4 h5
    simp only [classify, h1, h4, h5, Bool.false_eq_true, if_false, h2, if_neg h3]

/-- Witness for C5: one concrete tag set per classifier outcome. -/
theorem classify_precedence_witness :
    classify (some (fun k => if k = kBuilding then some vYes else Option.none))
        = FeatureKind.building ∧
      classify (some (fun k => if k = kNatural then some vCoastline
        else Option.none)) = FeatureKind.coastline ∧
      classify (some (fun k => if k = kNatural then some vWater
        else Option.none)) = FeatureKind.water ∧
      classify (some (fun k => if k = kHighway then some vYes
        else Option.none)) = FeatureKind.road ∧
      classify (some (fun k => if k = kRailway then some vYes
        else Option.none)) = FeatureKind.railway ∧
      classify (some (fun _ => (Option.none : Option String)))
        = FeatureKind.none ∧
      classify Option.none = FeatureKind.none :=
  ⟨(classify_precedence _).1 (by decide),
    (classify_precedence _).2.1 (by decide) (by decide),
    (classify_precedence _).2.2.1 (by decide) (by decide) (by decide),
    (classify_precedence _).2.2.2.1 (by decide) (by decide) (by decide) (by decide),
    (classify_precedence _).2.2.2.2.1 (by decide) (by decide) (by decide)
      (by decide) (by decide),
    (classify_precedence _).2.2.2.2.2.1 (by decide) (by decide) (by decide)
      (by decide) (by decide),
    (classify_precedence (fun _ => Option.none)).2.2.2.2.2.2⟩

/-! ## Simplifier (spec §4.7)

Modelled from the spec: no simplifier code exists in the repository snapshot
(src/ has no Douglas-Peucker or tolerance code); §4.7 describes it as
Douglas-Peucker reduction whose tolerance is a step function of the
computed scale, in four bands from "no reduction" at fine scale to the
coarsest band for very large selections.  Perpendicular distances are
compared squared against the squared tolerance, which is exact over ℚ and
order-equivalent to comparing true distances. -/

/-- Modelled from the spec: does the point `p` lie further than `tol` from
the line through `a` and `b`?  (`cross² > tol² · |b - a|²`.) -/
def perpDistExceeds (tol : ℚ) (a b p : Point) : Bool :=
  let cross := (b.1 - a.1) * (a.2 - p.2) - (a.1 - p.1) * (b.2 - a.2)
  let len2 := (b.1 - a.1) * (b.1 - a.1) + (b.2 - a.2) * (b.2 - a.2)
  decide (tol * tol * len2 < cross * cross)

/-- Modelled from the spec: the signed chord cross product of interior point
`k` of the polyline against the chord from the first to the last point
(proportional to its perpendicular distance from the chord). -/
def dpCross (pts : List Point) (k : ℕ) : ℚ :=
  let a := pts.getD 0 (0, 0)
  let b := pts.getD (pts.length - 1) (0, 0)
  let p := pts.getD k (0, 0)
  (b.1 - a.1) * (a.2 - p.2) - (a.1 - p.1) * (b.2 - a.2)

/-- Modelled from the spec: the interior index (in `[1, n-2]`) whose point
lies furthest from the chord (first such index on ties). -/
def dpBest (pts : List Point) : ℕ :=
  ((List.range (pts.length - 2)).map (fun j => j + 1)).foldl
    (fun acc k =>
      if dpCross pts acc * dpCross pts acc < dpCross pts k * dpCross pts k
      then k else acc) 1

/-- Modelled from the spec: Douglas-Peucker recursion.  A polyline of at
most 3 points is returned unreduced; otherwise the interior point furthest
from the chord is found; if it exceeds the tolerance the polyline is split
there and both halves are reduced, else only the endpoints remain.  The
fuel is the list length, which bounds the recursion depth since every split
produces strictly shorter parts. -/
def dpRec : ℕ → ℚ → List Point → List Point
  | 0, _, pts => pts
  | fuel + 1, tol, pts =>
    if pts.length ≤ 3 then pts
    else if perpDistExceeds tol (pts.getD 0 (0, 0))
        (pts.getD (pts.length - 1) (0, 0)) (pts.getD (dpBest pts) (0, 0)) then
      (dpRec fuel tol (pts.take (dpBest pts + 1))).dropLast
        ++ dpRec fuel tol (pts.drop (dpBest pts))
    else [pts.getD 0 (0, 0), pts.getD (pts.length - 1) (0, 0)]

/-- Modelled from the spec: the scale-dependent tolerance, a step function
in four bands (representative thresholds; the spec fixes the shape — four
bands, "no reduction" at fine scale — but not the constants). -/
def toleranceForScale (scaleMMperM : ℚ) : ℚ :=
  if 1 ≤ scaleMMperM then 0
  else if 1 / 10 ≤ scaleMMperM then 1 / 10
  else if 1 / 100 ≤ scaleMMperM then 1 / 4
  else 1 / 2

/-- Modelled from the spec: the Simplifier entry point. -/
def simplifyPolyline (scaleMMperM : ℚ) (pts : List Point) : List Point :=
  dpRec pts.length (toleranceForScale scaleMMperM) pts

lemma head?_take_succ (l : List Point) (k : ℕ) :
    (l.take (k + 1)).head? = l.head? := by
  cases l <;> simp

lemma getLast?_drop_of_lt (k : ℕ) :
    ∀ (l : List Point), k < l.length → (l.drop k).getLast? = l.getLast? := by
  induction k with
  | zero => intro l _; simp
  | succ j ih =>
    intro l hk
    cases l with
    | nil => simp at hk
    | cons x t =>
      have ht : j < t.length := by simpa using hk
      have htne : t ≠ [] := by
        intro h
        rw [h] at ht
        simp at ht
      rw [List.drop_succ_cons, ih t ht]
      cases t with
      | nil => exact absurd rfl htne
      | cons y t2 => rw [List.getLast?_cons_cons]

lemma head?_dropLast_append {l r : List Point} (h : 2 ≤ l.length) :
    (l.dropLast ++ r).head? = l.head? := by
  cases l with
  | nil => simp at h
  | cons x t =>
    cases t with
    | nil => simp at h
    | cons y t2 => simp

/-- The index chosen by the furthest-point fold stays in `[1, n - 2]`. -/
lemma dpBest_bounds (pts : List Point) (hn : 3 ≤ pts.length) :
    1 ≤ dpBest pts ∧ dpBest pts ≤ pts.length - 2 := by
  have hgen : ∀ (l : List ℕ) (acc : ℕ), 1 ≤ acc → acc ≤ pts.length - 2 →
      (∀ k ∈ l, 1 ≤ k ∧ k ≤ pts.length - 2) →
      1 ≤ l.foldl (fun a k =>
          if dpCross pts a * dpCross pts a < dpCross pts k * dpCross pts k
          then k else a) acc ∧
        l.foldl (fun a k =>
          if dpCross pts a * dpCross pts a < dpCross pts k * dpCross pts k
          then k else a) acc ≤ pts.length - 2 := by
    intro l
    induction l with
    | nil => intro acc h1 h2 _; exact ⟨h1, h2⟩
    | cons x t ih =>
      intro acc h1 h2 hall
      rw [List.foldl_cons]
      by_cases hc : dpCross pts acc * dpCross pts acc
          < dpCross pts x * dpCross pts x
      · rw [if_pos hc]
        exact ih x (hall x (List.mem_cons_self _ _)).1
          (hall x (List.mem_cons_self _ _)).2
          (fun k hk => hall k (List.mem_cons_of_mem _ hk))
      · rw [if_neg hc]
        exact ih acc h1 h2 (fun k hk => hall k (List.mem_cons_of_mem _ hk))
  apply hgen
  · exact le_refl 1
  · omega
  · intro k hk
    rw [List.mem_map] at hk
    obtain ⟨j, hj, rfl⟩ := hk
    rw [List.mem_range] at hj
    omega

/-- For a nonempty list, `getD (length - 1)` is the last element. -/
lemma getLast?_eq_getD {l : List Point} (h : l ≠ []) :
    l.getLast? = some (l.getD (l.length - 1) (0, 0)) := by
  rw [List.getLast?_eq_getLast_of_ne_nil h, List.getLast_eq_getElem]
  rw [List.getD_eq_getElem?_getD,
    List.getElem?_eq_getElem (by
      have := List.length_pos.mpr h
      omega)]
  simp

/-- `dpRec` keeps at least its two endpoints. -/
lemma dpRec_length_ge_two :
    ∀ (fuel : ℕ) (tol : ℚ) (pts : List Point), 2 ≤ pts.length →
      2 ≤ (dpRec fuel tol pts).length := by
  intro fuel
  induction fuel with
  | zero => intro tol pts h; simpa [dpRec] using h
  | succ f ih =>
    intro tol pts h
    unfold dpRec
    split
    · exact h
    · next hlen =>
      split
      · have hn : 3 ≤ pts.length := by omega
        have hb := dpBest_bounds pts hn
        have h1 : 2 ≤ (pts.take (dpBest pts + 1)).length := by
          rw [List.length_take]
          omega
        have h2 : 2 ≤ (pts.drop (dpBest pts)).length := by
          rw [List.length_drop]
          omega
        have hL := ih tol _ h1
        have hR := ih tol _ h2
        rw [List.length_append, List.length_dropLast]
        omega
      · simp

/-- `dpRec` preserves the first point. -/
lemma dpRec_head? :
    ∀ (fuel : ℕ) (tol : ℚ) (pts : List Point),
      (dpRec fuel tol pts).head? = pts.head? := by
  intro fuel
  induction fuel with
  | zero => intro tol pts; rfl
  | succ f ih =>
    intro tol pts
    unfold dpRec
    split
    · rfl
    · next hlen =>
      split
      · have hn : 3 ≤ pts.length := by omega
        have hb := dpBest_bounds pts hn
        have h1 : 2 ≤ (pts.take (dpBest pts + 1)).length := by
          rw [List.length_take]
          omega
        have hL2 := dpRec_length_ge_two f tol _ h1
        rw [head?_dropLast_append hL2, ih, head?_take_succ]
      · have hne : pts ≠ [] := by
          intro hx
          rw [hx] at hlen
          simp at hlen
        cases pts with
        | nil => exact absurd rfl hne
        | cons x t => simp

/-- `dpRec` preserves the last point. -/
lemma dpRec_getLast? :
    ∀ (fuel : ℕ) (tol : ℚ) (pts : List Point),
      (dpRec fuel tol pts).getLast? = pts.getLast? := by
  intro fuel
  induction fuel with
  | zero => intro tol pts; rfl
  | succ f ih =>
    intro tol pts
    unfold dpRec
    split
    · rfl
    · next hlen =>
      split
      · have hn : 3 ≤ pts.length := by omega
        have hb := dpBest_bounds pts hn
        have h2 : 2 ≤ (pts.drop (dpBest pts)).length := by
          rw [List.length_drop]
          omega
        have hR2 := dpRec_length_ge_two f tol _ h2
        have hRne : dpRec f tol (pts.drop (dpBest pts)) ≠ [] := by
          intro hx
          rw [hx] at hR2
          simp at hR2
        rw [List.getLast?_append_of_ne_nil _ hRne, ih,
          getLast?_drop_of_lt _ _ (by omega)]
      · have hne : pts ≠ [] := by
          intro hx
          rw [hx] at hlen
          simp at hlen
        have hlast : ([pts.getD 0 (0, 0), pts.getD (pts.length - 1) (0, 0)]
            : List Point).getLast? = some (pts.getD (pts.length - 1) (0, 0)) := by
          simp
        rw [hlast, getLast?_eq_getD hne]

/-- C9.  The simplifier retains the first and last point of every polyline,
and returns every polyline of at most 3 points unreduced. -/
theorem simplifyPolyline_endpoints (scale : ℚ) (pts : List Point) :
    (simplifyPolyline scale pts).head? = pts.head? ∧
      (simplifyPolyline scale pts).getLast? = pts.getLast? ∧
      (pts.length ≤ 3 → simplifyPolyline scale pts = pts) := by
  refine ⟨dpRec_head? _ _ _, dpRec_getLast? _ _ _, ?_⟩
  intro h3
  unfold simplifyPolyline
  cases hf : pts.length with
  | zero =>
    rw [List.length_eq_zero.mp hf]
    rfl
  | succ n =>
    unfold dpRec
    rw [if_pos (by omega)]

/-! ## Coastline resolver (part of useOverpassData.ts: `segmentBoxIntersection`,
`boxAngle`, `boxCornersBetween`, `buildSeaPolygons`)

Chain points are `(lat, lon)` pairs; `segmentBoxIntersection` works in
`(x = lon, y = lat)` coordinates, so the call sites swap components exactly
as the source does. -/

/-- Pick the candidate with the smallest `t` (first on ties — JS
`Array.prototype.sort` is stable and the source takes `edges[0]`). -/
def pickMinT (l : List (ℚ × Point)) : Option Point :=
  (l.foldl (fun best e =>
    match best with
    | Option.none => some e
    | some b0 => if e.1 < b0.1 then some e else some b0) Option.none).map
    Prod.snd

/-- `segmentBoxIntersection(ax, ay, bx, by, minX, minY, maxX, maxY)` with
`a = (ax, ay)`, `b = (bx, by)`: the boundary intersection of the segment
closest to `a`, or `none`. -/
def segmentBoxIntersection (a b : Point) (minX minY maxX maxY : ℚ) :
    Option Point :=
  let leftC : List (ℚ × Point) :=
    if b.1 ≠ a.1 then
      let t := (minX - a.1) / (b.1 - a.1)
      if 0 ≤ t ∧ t ≤ 1 then
        let iy := a.2 + t * (b.2 - a.2)
        if minY ≤ iy ∧ iy ≤ maxY then [(t, (minX, iy))] else []
      else []
    else []
  let rightC : List (ℚ × Point) :=
    if b.1 ≠ a.1 then
      let t := (maxX - a.1) / (b.1 - a.1)
      if 0 ≤ t ∧ t ≤ 1 then
        let iy := a.2 + t * (b.2 - a.2)
        if minY ≤ iy ∧ iy ≤ maxY then [(t, (maxX, iy))] else []
      else []
    else []
  let bottomC : List (ℚ × Point) :=
    if b.2 ≠ a.2 then
      let t := (minY - a.2) / (b.2 - a.2)
      if 0 ≤ t ∧ t ≤ 1 then
        let ix := a.1 + t * (b.1 - a.1)
        if minX ≤ ix ∧ ix ≤ maxX then [(t, (ix, minY))] else []
      else []
    else []
  let topC : List (ℚ × Point) :=
    if b.2 ≠ a.2 then
      let t := (maxY - a.2) / (b.2 - a.2)
      if 0 ≤ t ∧ t ≤ 1 then
        let ix := a.1 + t * (b.1 - a.1)
        if minX ≤ ix ∧ ix ≤ maxX then [(t, (ix, maxY))] else []
      else []
    else []
  pickMinT (leftC ++ rightC ++ bottomC ++ topC)

/-- `boxAngle(x, y, ...)`: position of a boundary point on the 0–4 clockwise
perimeter parametrisation (eps = 1e-9). -/
def boxAngle (x y minX minY maxX maxY : ℚ) : ℚ :=
  let eps : ℚ := 1 / 1000000000
  let w := maxX - minX
  let h := maxY - minY
  if |y - maxY| < eps then (x - minX) / w
  else if |x - maxX| < eps then 1 + (maxY - y) / h
  else if |y - minY| < eps then 2 + (maxX - x) / w
  else if |x - minX| < eps then 3 + (y - minY) / h
  else 0

/-- `boxCornersBetween(startAngle, endAngle, ...)`: the clockwise corner
waypoints strictly between the two perimeter angles. -/
def boxCornersBetween (startAngle endAngle minX minY maxX maxY : ℚ) :
    List Point :=
  let corners : List Point :=
    [(maxX, maxY), (maxX, minY), (minX, minY), (minX, maxY)]
  let target := if endAngle ≤ startAngle then endAngle + 4 else endAngle
  (List.zip [(1 : ℚ), 2, 3, 4] corners).filterMap (fun pr =>
    let ca := if pr.1 ≤ startAngle then pr.1 + 4 else pr.1
    if startAngle < ca ∧ ca < target then some pr.2 else Option.none)

/-- One scan of the forward-only coastline chaining loop: extend the chain
at its tail by a segment's head, or at its head by a segment's tail — never
reversing a fragment. -/
def coastScan (chain : List ℕ) :
    List (List ℕ) → Option (List ℕ × List (List ℕ))
  | [] => Option.none
  | seg :: rest =>
    if chain.getLast? = seg.head? then some (chain ++ seg.drop 1, rest)
    else if chain.head? = seg.getLast? then some (seg ++ chain.drop 1, rest)
    else (coastScan chain rest).map (fun pr => (pr.1, seg :: pr.2))

/-- The `while (changed)` coastline chaining loop; fuel = pool size bounds
the productive iterations. -/
def coastExtend : ℕ → List ℕ → List (List ℕ) → List ℕ × List (List ℕ)
  | 0, chain, rem => (chain, rem)
  | fuel + 1, chain, rem =>
    match coastScan chain rem with
    | Option.none => (chain, rem)
    | some (c2, r2) => coastExtend fuel c2 r2

/-- The outer chaining loop of `buildSeaPolygons`. -/
def coastChains : ℕ → List (List ℕ) → List (List ℕ)
  | 0, _ => []
  | _, [] => []
  | fuel + 1, chain :: rest =>
    let p := coastExtend rest.length chain rest
    p.1 :: coastChains fuel p.2

/-- The bbox-inside test of the chain scan:
`lat >= south && lat <= north && lon >= west && lon <= east`. -/
def insideBounds (bounds : Bounds) (p : Point) : Bool :=
  decide (bounds.1 ≤ p.1 ∧ p.1 ≤ bounds.2.2.1 ∧
    bounds.2.1 ≤ p.2 ∧ p.2 ≤ bounds.2.2.2)

/-- A chain segment inside the bbox with its boundary entry and exit. -/
structure CoastSeg where
  points : List Point
  entry : Point
  exitP : Point
deriving DecidableEq

/-- The mutable state of the chain scan (`curPoints`, `curEntry`,
`segments`). -/
structure ScanState where
  cur : List Point
  entry : Option Point
  segs : List CoastSeg
deriving DecidableEq

/-- One iteration (index `i > 0`) of the chain scan of `buildSeaPolygons`:
the entering/exiting transition on the pair `(prev, cur)` followed by the
`if (inside) curPoints.push(...)`. -/
def scanStep (bounds : Bounds) (st : ScanState) (prev cur : Point) :
    ScanState :=
  let pIn := insideBounds bounds prev
  let cIn := insideBounds bounds cur
  let st1 :=
    if pIn = false ∧ cIn = true then
      match segmentBoxIntersection (prev.2, prev.1) (cur.2, cur.1)
          bounds.2.1 bounds.1 bounds.2.2.2 bounds.2.2.1 with
      | some ipt =>
        ⟨[(ipt.2, ipt.1)], some (ipt.2, ipt.1), st.segs⟩
      | Option.none => ⟨[], some cur, st.segs⟩
    else if pIn = true ∧ cIn = false then
      let newSegs :=
        match segmentBoxIntersection (prev.2, prev.1) (cur.2, cur.1)
            bounds.2.1 bounds.1 bounds.2.2.2 bounds.2.2.1, st.entry with
        | some ipt, some e =>
          let pts := st.cur ++ [(ipt.2, ipt.1)]
          if 2 ≤ pts.length then st.segs ++ [⟨pts, e, (ipt.2, ipt.1)⟩]
          else st.segs
        | _, _ => st.segs
      ⟨[], Option.none, newSegs⟩
    else st
  if cIn then ⟨st1.cur ++ [cur], st1.entry, st1.segs⟩ else st1

/-- Run the scan over the rest of the chain, carrying the previous point. -/
def scanGo (bounds : Bounds) : ScanState → Point → List Point → ScanState
  | st, _, [] => st
  | st, prev, c :: rest => scanGo bounds (scanStep bounds st prev c) c rest

/-- The full chain scan: segments of the chain inside the bbox, each with
entry and exit boundary points. -/
def scanChain (bounds : Bounds) : List Point → List CoastSeg
  | [] => []
  | p :: rest =>
    (scanGo bounds
      ⟨if insideBounds bounds p then [p] else [], Option.none, []⟩ p rest).segs

/-- Twice the signed area used for the closed-ring winding test
(`(lon_{i+1} - lon_i) * (lat_{i+1} + lat_i)` summed). -/
def ringArea2 (coords : List Point) : ℚ :=
  (coords.zip coords.tail).foldl
    (fun s pr => s + (pr.2.2 - pr.1.2) * (pr.2.1 + pr.1.1)) 0

/-- Close one scanned segment into a sea polygon: the inside points, then
the clockwise box corners from exit back to entry, then the segment's first
point again. -/
def seaPolyOfSeg (bounds : Bounds) (seg : CoastSeg) : List Point :=
  let south := bounds.1
  let west := bounds.2.1
  let north := bounds.2.2.1
  let east := bounds.2.2.2
  let exitAngle := boxAngle seg.exitP.2 seg.exitP.1 west south east north
  let entryAngle := boxAngle seg.entry.2 seg.entry.1 west south east north
  let corners := boxCornersBetween exitAngle entryAngle west south east north
  (seg.points ++ corners.map (fun c => (c.2, c.1))) ++ [seg.points.getD 0 (0, 0)]

/-- `buildSeaPolygons(coastlineWays, nodeMap, bounds)`. -/
def buildSeaPolygons (coastlineWays : List OsmWay)
    (nodeMap : ℕ → Option Point) (bounds : Bounds) : List (List Point) :=
  if coastlineWays.isEmpty then []
  else
    (coastChains coastlineWays.length
        (coastlineWays.map (fun w => w.nodes))).flatMap (fun chain =>
      match resolveCoords nodeMap chain with
      | Option.none => []
      | some coords =>
        if coords.length < 2 then []
        else if chain.head? = chain.getLast? then
          if 0 < ringArea2 coords then [coords] else []
        else
          (scanChain bounds coords).filterMap (fun seg =>
            let sp := seaPolyOfSeg bounds seg
            if 3 ≤ sp.length then some sp else Option.none))

/-- C2 counterexample.  Chain `[1,2,3]` at `(5,-5) → (5,5) → (5,15)` against
bounds south 0, west 0, north 10, east 10: one sea polygon with 6 vertices —
3 chain points inside (entry `(5,0)`, `(5,5)`, exit `(5,10)`) plus 2 walked
corners plus the closing repeat of the entry point; the claimed count
(inside points + corners = 5) misses the closing vertex. -/
theorem buildSeaPolygons_count_cex :
    buildSeaPolygons [⟨0, [1, 2, 3], Option.none⟩]
        (fun n => if n = 1 then some ((5 : ℚ), -5)
          else if n = 2 then some (5, 5)
          else if n = 3 then some (5, 15) else Option.none)
        ((0 : ℚ), 0, 10, 10)
      = [[((5 : ℚ), 0), (5, 5), (5, 10), (0, 10), (0, 0), (5, 0)]] ∧
    ([((5 : ℚ), 0), (5, 5), (5, 10), (0, 10), (0, 0), (5, 0)] : List Point).length
      ≠ 3 + 2 := by
  refine ⟨?_, by decide⟩
  have hE : segmentBoxIntersection ((-5 : ℚ), 5) (5, 5) 0 0 10 10
      = some (0, 5) := by
    norm_num [segmentBoxIntersection, pickMinT]
  have hX : segmentBoxIntersection ((5 : ℚ), 5) (15, 5) 0 0 10 10
      = some (10, 5) := by
    norm_num [segmentBoxIntersection, pickMinT]
  have hs1 : scanStep ((0 : ℚ), 0, 10, 10) ⟨[], Option.none, []⟩
      ((5 : ℚ), -5) (5, 5) = ⟨[(5, 0), (5, 5)], some (5, 0), []⟩ := by
    norm_num [scanStep, insideBounds, hE]
  have hs2 : scanStep ((0 : ℚ), 0, 10, 10)
      ⟨[((5 : ℚ), 0), (5, 5)], some (5, 0), []⟩ ((5 : ℚ), 5) (5, 15)
      = ⟨[], Option.none, [⟨[(5, 0), (5, 5), (5, 10)], (5, 0), (5, 10)⟩]⟩ := by
    norm_num [scanStep, insideBounds, hX]
  have hscan : scanChain ((0 : ℚ), 0, 10, 10) [((5 : ℚ), -5), (5, 5), (5, 15)]
      = [⟨[(5, 0), (5, 5), (5, 10)], (5, 0), (5, 10)⟩] := by
    unfold scanChain
    norm_num [scanGo, insideBounds, hs1, hs2]
  have hsea : seaPolyOfSeg ((0 : ℚ), 0, 10, 10)
      ⟨[((5 : ℚ), 0), (5, 5), (5, 10)], (5, 0), (5, 10)⟩
      = [((5 : ℚ), 0), (5, 5), (5, 10), (0, 10), (0, 0), (5, 0)] := by
    norm_num [seaPolyOfSeg, boxAngle, boxCornersBetween, abs_of_nonneg,
      abs_of_nonpos, List.filterMap_cons]
  have hres : resolveCoords (fun n => if n = 1 then some ((5 : ℚ), -5)
      else if n = 2 then some (5, 5)
      else if n = 3 then some (5, 15) else Option.none) [1, 2, 3]
      = some [((5 : ℚ), -5), (5, 5), (5, 15)] := by decide
  unfold buildSeaPolygons
  norm_num [coastChains, coastExtend, coastScan, hres, hscan, hsea,
    List.filterMap_cons]

lemma getLastD_cons_mem (m : Point) (M2 : List Point) :
    M2.getLastD m ∈ m :: M2 := by
  induction M2 generalizing m with
  | nil => simp
  | cons c rest ih =>
    rw [List.getLastD_cons]
    exact List.mem_cons_of_mem _ (ih c)

/-- The scan is inert while the chain stays outside the bbox. -/
lemma scanGo_outside (bounds : Bounds) :
    ∀ (L : List Point) (st : ScanState) (prev : Point),
      insideBounds bounds prev = false →
      (∀ p ∈ L, insideBounds bounds p = false) →
      scanGo bounds st prev L = st := by
  intro L
  induction L with
  | nil => intro st prev _ _; rfl
  | cons c rest ih =>
    intro st prev hprev hall
    have hc := hall c (List.mem_cons_self _ _)
    have hstep : scanStep bounds st prev c = st := by
      unfold scanStep
      simp [hprev, hc]
    show scanGo bounds (scanStep bounds st prev c) c rest = st
    rw [hstep]
    exact ih st c hc (fun p hp => hall p (List.mem_cons_of_mem _ hp))

/-- Inside the bbox the scan appends every point to the open segment. -/
lemma scanGo_inside (bounds : Bounds) :
    ∀ (L : List Point) (st : ScanState) (prev : Point),
      insideBounds bounds prev = true →
      (∀ p ∈ L, insideBounds bounds p = true) →
      scanGo bounds st prev L = ⟨st.cur ++ L, st.entry, st.segs⟩ := by
  intro L
  induction L with
  | nil => intro st prev _ _; simp [scanGo]
  | cons c rest ih =>
    intro st prev hprev hall
    have hc := hall c (List.mem_cons_self _ _)
    have hstep : scanStep bounds st prev c = ⟨st.cur ++ [c], st.entry, st.segs⟩ := by
      unfold scanStep
      simp [hprev, hc]
    show scanGo bounds (scanStep bounds st prev c) c rest = _
    rw [hstep, ih _ c hc (fun p hp => hall p (List.mem_cons_of_mem _ hp))]
    simp

/-- Splitting a scan at a list append. -/
lemma scanGo_append (bounds : Bounds) :
    ∀ (L R : List Point) (st : ScanState) (prev : Point),
      scanGo bounds st prev (L ++ R)
        = scanGo bounds (scanGo bounds st prev L) (L.getLastD prev) R := by
  intro L
  induction L with
  | nil => intro R st prev; rfl
  | cons c rest ih =>
    intro R st prev
    show scanGo bounds (scanStep bounds st prev c) c (rest ++ R) = _
    rw [ih R (scanStep bounds st prev c) c, List.getLastD_cons]
    rfl

/-- A scan whose chain starts with a nonempty all-outside run reduces to the
scan of the remainder from the empty state. -/
lemma scanChain_outside_start (bounds : Bounds) (o0 : Point)
    (O R : List Point)
    (hO : ∀ p ∈ o0 :: O, insideBounds bounds p = false) :
    scanChain bounds (o0 :: (O ++ R))
      = (scanGo bounds ⟨[], Option.none, []⟩ (O.getLastD o0) R).segs := by
  show (scanGo bounds
      ⟨if insideBounds bounds o0 = true then [o0] else [], Option.none, []⟩
      o0 (O ++ R)).segs = _
  rw [if_neg (show ¬(insideBounds bounds o0 = true) by
    simp [hO o0 (List.mem_cons_self _ _)])]
  rw [scanGo_append bounds O R _ o0]
  rw [scanGo_outside bounds O _ o0 (hO o0 (List.mem_cons_self _ _))
    (fun p hp => hO p (List.mem_cons_of_mem _ hp))]

/-- The scan of one enter–inside–exit run emits exactly one segment:
the entry intersection, the inside points, the exit intersection. -/
lemma scanGo_single_run (bounds : Bounds) (a m d e x : Point)
    (M2 Q : List Point) (segs0 : List CoastSeg)
    (hain : insideBounds bounds a = false)
    (hMin : ∀ p ∈ m :: M2, insideBounds bounds p = true)
    (hQout : ∀ p ∈ d :: Q, insideBounds bounds p = false)
    (hE : segmentBoxIntersection (a.2, a.1) (m.2, m.1)
      bounds.2.1 bounds.1 bounds.2.2.2 bounds.2.2.1 = some e)
    (hX : segmentBoxIntersection ((M2.getLastD m).2, (M2.getLastD m).1)
      (d.2, d.1) bounds.2.1 bounds.1 bounds.2.2.2 bounds.2.2.1 = some x) :
    scanGo bounds ⟨[], Option.none, segs0⟩ a (m :: (M2 ++ d :: Q))
      = ⟨[], Option.none, segs0 ++
          [⟨(e.2, e.1) :: m :: (M2 ++ [(x.2, x.1)]), (e.2, e.1), (x.2, x.1)⟩]⟩ := by
  have hmIn := hMin m (List.mem_cons_self _ _)
  have hdOut := hQout d (List.mem_cons_self _ _)
  have hstep1 : scanStep bounds ⟨[], Option.none, segs0⟩ a m
      = ⟨[(e.2, e.1), m], some (e.2, e.1), segs0⟩ := by
    unfold scanStep
    simp [hain, hmIn, hE]
  show scanGo bounds (scanStep bounds ⟨[], Option.none, segs0⟩ a m) m
      (M2 ++ d :: Q) = _
  rw [hstep1, scanGo_append bounds M2 (d :: Q) _ m,
    scanGo_inside bounds M2 _ m hmIn
      (fun p hp => hMin p (List.mem_cons_of_mem _ hp))]
  have hmL : insideBounds bounds (M2.getLastD m) = true :=
    hMin _ (getLastD_cons_mem m M2)
  have hstep2 : scanStep bounds
      ⟨[(e.2, e.1), m] ++ M2, some (e.2, e.1), segs0⟩ (M2.getLastD m) d
      = ⟨[], Option.none, segs0 ++
          [⟨(e.2, e.1) :: m :: (M2 ++ [(x.2, x.1)]), (e.2, e.1), (x.2, x.1)⟩]⟩ := by
    unfold scanStep
    simp only [hmL, hdOut, hX]
    norm_num
  show scanGo bounds (scanStep bounds _ (M2.getLastD m) d) d Q = _
  rw [hstep2]
  exact scanGo_outside bounds Q _ d hdOut
    (fun p hp => hQout p (List.mem_cons_of_mem _ hp))

/-- C2 (amended).  A single open coastline fragment that starts outside the
selection rectangle, crosses in once, stays inside, and crosses out once
produces exactly one sea polygon.  Its vertex count is (chain points inside
the rectangle, including the entry and exit boundary intersection points)
plus (rectangle corners walked clockwise from exit to entry) **plus one**
for the closing repeat of the entry point. -/
theorem buildSeaPolygons_single_crossing
    (bounds : Bounds) (nm : ℕ → Option Point) (coastWays : List OsmWay)
    (chain : List ℕ) (P M2 Q : List Point) (a m d e x : Point)
    (hne : coastWays ≠ [])
    (hchain : coastChains coastWays.length
      (coastWays.map (fun w2 => w2.nodes)) = [chain])
    (hres : resolveCoords nm chain = some (P ++ a :: m :: (M2 ++ d :: Q)))
    (hopen : chain.head? ≠ chain.getLast?)
    (hPout : ∀ p ∈ P ++ [a], insideBounds bounds p = false)
    (hMin : ∀ p ∈ m :: M2, insideBounds bounds p = true)
    (hQout : ∀ p ∈ d :: Q, insideBounds bounds p = false)
    (hE : segmentBoxIntersection (a.2, a.1) (m.2, m.1)
      bounds.2.1 bounds.1 bounds.2.2.2 bounds.2.2.1 = some e)
    (hX : segmentBoxIntersection ((M2.getLastD m).2, (M2.getLastD m).1)
      (d.2, d.1) bounds.2.1 bounds.1 bounds.2.2.2 bounds.2.2.1 = some x) :
    buildSeaPolygons coastWays nm bounds
      = [seaPolyOfSeg bounds
          ⟨(e.2, e.1) :: m :: (M2 ++ [(x.2, x.1)]), (e.2, e.1), (x.2, x.1)⟩] ∧
    (seaPolyOfSeg bounds
        ⟨(e.2, e.1) :: m :: (M2 ++ [(x.2, x.1)]), (e.2, e.1), (x.2, x.1)⟩).length
      = ((m :: M2).length + 2)
        + (boxCornersBetween
            (boxAngle x.1 x.2 bounds.2.1 bounds.1 bounds.2.2.2 bounds.2.2.1)
            (boxAngle e.1 e.2 bounds.2.1 bounds.1 bounds.2.2.2 bounds.2.2.1)
            bounds.2.1 bounds.1 bounds.2.2.2 bounds.2.2.1).length + 1 := by
  have hseg : scanChain bounds (P ++ a :: m :: (M2 ++ d :: Q))
      = [⟨(e.2, e.1) :: m :: (M2 ++ [(x.2, x.1)]), (e.2, e.1), (x.2, x.1)⟩] := by
    obtain ⟨o0, O, hO⟩ : ∃ o0 O, P ++ [a] = o0 :: O := by
      cases P with
      | nil => exact ⟨a, [], rfl⟩
      | cons p0 P2 => exact ⟨p0, P2 ++ [a], rfl⟩
    have hOa : O.getLastD o0 = a := by
      have h1 : (P ++ [a]).getLastD a = a := List.getLastD_concat _ _ _
      rw [hO, List.getLastD_cons] at h1
      exact h1
    have hcoords : P ++ a :: m :: (M2 ++ d :: Q)
        = o0 :: (O ++ (m :: (M2 ++ d :: Q))) := by
      have h1 : P ++ a :: m :: (M2 ++ d :: Q)
          = (P ++ [a]) ++ (m :: (M2 ++ d :: Q)) := by simp
      rw [h1, hO]
      rfl
    rw [hcoords,
      scanChain_outside_start bounds o0 O _ (by rw [hO] at hPout; exact hPout),
      hOa,
      scanGo_single_run bounds a m d e x M2 Q []
        (hPout a (by simp)) hMin hQout hE hX]
    rfl
  have hlen : ∀ seg : CoastSeg, (seaPolyOfSeg bounds seg).length
      = seg.points.length
        + (boxCornersBetween
            (boxAngle seg.exitP.2 seg.exitP.1 bounds.2.1 bounds.1
              bounds.2.2.2 bounds.2.2.1)
            (boxAngle seg.entry.2 seg.entry.1 bounds.2.1 bounds.1
              bounds.2.2.2 bounds.2.2.1)
            bounds.2.1 bounds.1 bounds.2.2.2 bounds.2.2.1).length + 1 := by
    intro seg
    unfold seaPolyOfSeg
    simp
    omega
  have hge3 : 3 ≤ (seaPolyOfSeg bounds
      ⟨(e.2, e.1) :: m :: (M2 ++ [(x.2, x.1)]), (e.2, e.1), (x.2, x.1)⟩).length := by
    rw [hlen]
    simp only [List.length_cons]
    omega
  have hne2 : coastWays.isEmpty = false := by
    cases coastWays with
    | nil => exact absurd rfl hne
    | cons x2 xs => rfl
  constructor
  · unfold buildSeaPolygons
    rw [if_neg (show ¬(coastWays.isEmpty = true) by simp [hne2])]
    rw [hchain]
    rw [List.flatMap_cons, List.flatMap_nil, List.append_nil, hres]
    dsimp only
    rw [if_neg (show ¬((P ++ a :: m :: (M2 ++ d :: Q)).length < 2) by
      simp only [List.length_append, List.length_cons]
      omega)]
    rw [if_neg hopen, hseg]
    simp [hge3]
  · rw [hlen]
    simp only [List.length_cons, List.length_append, List.length_nil]

/-- Witness for C2 at the concrete single-crossing chain. -/
theorem buildSeaPolygons_single_crossing_witness :
    buildSeaPolygons [⟨0, [1, 2, 3], Option.none⟩]
        (fun n => if n = 1 then some ((5 : ℚ), -5)
          else if n = 2 then some (5, 5)
          else if n = 3 then some (5, 15) else Option.none)
        ((0 : ℚ), 0, 10, 10)
      = [seaPolyOfSeg ((0 : ℚ), 0, 10, 10)
          ⟨[((5 : ℚ), 0), (5, 5), (5, 10)], (5, 0), (5, 10)⟩] ∧
    (seaPolyOfSeg ((0 : ℚ), 0, 10, 10)
        ⟨[((5 : ℚ), 0), (5, 5), (5, 10)], (5, 0), (5, 10)⟩).length
      = (([(5, 5)] : List Point).length + 2)
        + (boxCornersBetween
            (boxAngle (10 : ℚ) 5 0 0 10 10) (boxAngle (0 : ℚ) 5 0 0 10 10)
            0 0 10 10).length + 1 :=
  buildSeaPolygons_single_crossing ((0 : ℚ), 0, 10, 10) _
    [⟨0, [1, 2, 3], Option.none⟩] [1, 2, 3]
    [] [] [] ((5 : ℚ), -5) (5, 5) (5, 15) (0, 5) (10, 5)
    (List.cons_ne_nil _ _) rfl
    (by decide) (by decide) (by decide) (by decide) (by decide)
    (by norm_num [segmentBoxIntersection, pickMinT])
    (by norm_num [segmentBoxIntersection, pickMinT])

/-! ## The full pipeline (coastline-aware useOverpassData.ts `parseElements`) -/

/-- A raw OSM node. -/
structure OsmNode where
  id : ℕ
  lat : ℚ
  lon : ℚ

/-- A relation member (`{ type, ref, role }`). -/
structure OsmRelMember where
  mtype : String
  ref : ℕ
  role : String

/-- A raw OSM relation. -/
structure OsmRelation where
  id : ℕ
  members : List OsmRelMember
  tags : Option Tags

/-- The raw element union. -/
inductive OsmElement where
  | node (n : OsmNode)
  | way (w : OsmWay)
  | rel (r : OsmRelation)

/-- Road classification (`RoadData["kind"]`). -/
inductive RoadKind where
  | major
  | minor
  | path
  | railway
deriving DecidableEq

/-- A building feature of the scene. -/
structure Building where
  polygon : List Point
  heightMm : ℚ
deriving DecidableEq

/-- A water feature of the scene (`holes?` optional). -/
structure WaterPoly where
  polygon : List Point
  holes : Option (List (List Point))
deriving DecidableEq

/-- A road/rail feature of the scene. -/
structure Road where
  polygon : List Point
  kind : RoadKind
deriving DecidableEq

/-- The exported scene description. -/
structure SceneData where
  buildings : List Building
  water : List WaterPoly
  roads : List Road
  modelWidthMm : ℚ
  modelDepthMm : ℚ
deriving DecidableEq

def kWay : String := "way"

def kOuter : String := "outer"

def kInner : String := "inner"

/-- `projectPolygon(coords, bounds, scaleMMperM, modelWidthMm?, modelDepthMm?)`:
project to model mm and clip to the base plate when the dimensions are
given. -/
def projectPolygon (cosDeg : ℚ → ℚ) (coords : List Point) (bounds : Bounds)
    (scaleMMperM : ℚ) (modelWidthMm modelDepthMm : Option ℚ) : List Point :=
  let projected := coords.map (fun c =>
    let mxy := latLonToLocalMetres cosDeg c.1 c.2 bounds
    (mxy.1 * scaleMMperM, mxy.2 * scaleMMperM))
  match modelWidthMm, modelDepthMm with
  | some w, some d =>
    clipPolygon projected (-(w / 2)) (-(d / 2)) (w / 2) (d / 2)
  | _, _ => projected

/-- `classifyRoad(highway)`. -/
def classifyRoad (highway : String) : RoadKind :=
  match highway with
  | "motorway" | "trunk" | "primary" | "secondary"
  | "motorway_link" | "trunk_link" | "primary_link" | "secondary_link" =>
    RoadKind.major
  | "tertiary" | "residential" | "unclassified" | "living_street"
  | "service" | "tertiary_link" => RoadKind.minor
  | _ => RoadKind.path

/-- `roadHalfWidthMetres(kind)`: the source switch covers only major, minor
and path.  The `railway` kind (passed by the newer `parseElements`) falls
through the switch, producing `undefined` in JS; the missing arm is
modelled as `none`. -/
def roadHalfWidthMetres : RoadKind → Option ℚ
  | RoadKind.major => some 6
  | RoadKind.minor => some 3
  | RoadKind.path => some (3 / 2)
  | RoadKind.railway => Option.none

/-- `projectRoad(coords, bounds, scaleMMperM, kind, modelWidthMm, modelDepthMm)`.
With the `undefined` railway half-width every buffered coordinate is NaN in
JS, every inside-test of the clipper is then false and the clipped result
is empty; the model returns `[]` directly in that case. -/
def projectRoad (cosDeg sqrtFn : ℚ → ℚ) (coords : List Point)
    (bounds : Bounds) (scaleMMperM : ℚ) (kind : RoadKind)
    (modelWidthMm modelDepthMm : ℚ) : List Point :=
  match roadHalfWidthMetres kind with
  | Option.none => []
  | some hwM =>
    let line := coords.map (fun c =>
      let mxy := latLonToLocalMetres cosDeg c.1 c.2 bounds
      (mxy.1 * scaleMMperM, mxy.2 * scaleMMperM))
    let poly := bufferLineToPolygon sqrtFn line (hwM * scaleMMperM)
    if poly.length < 3 then []
    else clipPolygon poly (-(modelWidthMm / 2)) (-(modelDepthMm / 2))
      (modelWidthMm / 2) (modelDepthMm / 2)

/-- The node lookup map (`Map.set` overwrites: the last node with an id
wins). -/
def buildNodeMap (elements : List OsmElement) : ℕ → Option Point :=
  fun n =>
    ((elements.filterMap (fun el =>
      match el with
      | OsmElement.node nd => some nd
      | _ => Option.none)).reverse.find? (fun nd => nd.id = n)).map
      (fun nd => (nd.lat, nd.lon))

/-- JS `Map.set` on the ways map: replace in place, else append (insertion
order is preserved by JS maps). -/
def upsertWay (l : List OsmWay) (w : OsmWay) : List OsmWay :=
  if l.any (fun x => x.id = w.id) then
    l.map (fun x => if x.id = w.id then w else x)
  else l ++ [w]

/-- The ways map in iteration order. -/
def buildWays (elements : List OsmElement) : List OsmWay :=
  elements.foldl (fun acc el =>
    match el with
    | OsmElement.way w => upsertWay acc w
    | _ => acc) []

/-- `ways.get(ref)`. -/
def findWay (ways : List OsmWay) (ref : ℕ) : Option OsmWay :=
  ways.find? (fun w => w.id = ref)

/-- The relations, in element order. -/
def getRelations (elements : List OsmElement) : List OsmRelation :=
  elements.filterMap (fun el =>
    match el with
    | OsmElement.rel r => some r
    | _ => Option.none)

/-- `tags ?? {}`. -/
def tagsOrEmpty (tags : Option Tags) : Tags :=
  match tags with
  | some t => t
  | Option.none => fun _ => Option.none

/-- `{ ...rel.tags, ...way.tags }`: the way's tags override the
relation's. -/
def tagMerge (relTags wayTags : Option Tags) : Tags :=
  fun k =>
    match tagsOrEmpty wayTags k with
    | some v => some v
    | Option.none => tagsOrEmpty relTags k

/-- Whether `buildingHeightMm` takes its randomized fallback branch for
this tag set (used to thread the `Math.random()` draw index). -/
def usesHeightFallback (tags : Tags) : Bool :=
  !(jsTruthy (tags kHeight) || jsTruthy (tags kLevels))

/-- `way.tags?.["highway"] ?? ""`. -/
def highwayValue (tags : Option Tags) : String :=
  match tagsOrEmpty tags kHighway with
  | some v => v
  | Option.none => ""

/-- State of the ways loop of `parseElements`: collected coastline ways,
the three feature lists, and the index of the next `Math.random()` draw. -/
structure WayState where
  coast : List OsmWay
  buildings : List Building
  water : List WaterPoly
  roads : List Road
  rngIdx : ℕ

/-- One iteration of the ways loop of `parseElements`. -/
def wayStep (cosDeg sqrtFn : ℚ → ℚ) (pf : String → Option ℚ)
    (pint : String → Option ℤ) (rnd : ℕ → ℚ) (bounds : Bounds)
    (scaleMMperM modelWidthMm modelDepthMm : ℚ)
    (nodeMap : ℕ → Option Point) (st : WayState) (way : OsmWay) : WayState :=
  match classify way.tags with
  | FeatureKind.none => st
  | FeatureKind.coastline => { st with coast := st.coast ++ [way] }
  | FeatureKind.road =>
    match resolveCoords nodeMap way.nodes with
    | Option.none => st
    | some coords =>
      if coords.length < 2 then st
      else
        let roadKind := classifyRoad (highwayValue way.tags)
        let poly := projectRoad cosDeg sqrtFn coords bounds scaleMMperM
          roadKind modelWidthMm modelDepthMm
        if poly.length < 3 then st
        else { st with roads := st.roads ++ [⟨poly, roadKind⟩] }
  | FeatureKind.railway =>
    match resolveCoords nodeMap way.nodes with
    | Option.none => st
    | some coords =>
      if coords.length < 2 then st
      else
        let poly := projectRoad cosDeg sqrtFn coords bounds scaleMMperM
          RoadKind.railway modelWidthMm modelDepthMm
        if poly.length < 3 then st
        else { st with roads := st.roads ++ [⟨poly, RoadKind.railway⟩] }
  | FeatureKind.building =>
    match resolveCoords nodeMap way.nodes with
    | Option.none => st
    | some coords =>
      if coords.length < 3 then st
      else
        let poly := projectPolygon cosDeg coords bounds scaleMMperM
          (some modelWidthMm) (some modelDepthMm)
        if poly.length < 3 then st
        else
          { st with
            buildings := st.buildings ++
              [⟨poly, buildingHeightMm pf pint (rnd st.rngIdx)
                (tagsOrEmpty way.tags) scaleMMperM⟩],
            rngIdx := if usesHeightFallback (tagsOrEmpty way.tags)
              then st.rngIdx + 1 else st.rngIdx }
  | FeatureKind.water =>
    match resolveCoords nodeMap way.nodes with
    | Option.none => st
    | some coords =>
      if coords.length < 3 then st
      else if 2 < way.nodes.length ∧ way.nodes.head? = way.nodes.getLast? then
        let poly := projectPolygon cosDeg coords bounds scaleMMperM
          (some modelWidthMm) (some modelDepthMm)
        if poly.length < 3 then st
        else { st with water := st.water ++ [⟨poly, Option.none⟩] }
      else st

/-- The water polygons contributed by one water relation (outer rings with
the projected inner rings as holes). -/
def relWaterPolys (cosDeg : ℚ → ℚ) (bounds : Bounds)
    (scaleMMperM modelWidthMm modelDepthMm : ℚ) (ways : List OsmWay)
    (nodeMap : ℕ → Option Point) (r : OsmRelation) : List WaterPoly :=
  let outerWays := r.members.filterMap (fun mb =>
    if mb.mtype = kWay then
      match findWay ways mb.ref with
      | some w2 => if mb.role = kOuter then some w2 else Option.none
      | Option.none => Option.none
    else Option.none)
  let innerWays := r.members.filterMap (fun mb =>
    if mb.mtype = kWay then
      match findWay ways mb.ref with
      | some w2 => if mb.role = kOuter then Option.none
        else if mb.role = kInner then some w2 else Option.none
      | Option.none => Option.none
    else Option.none)
  let projectedHoles := (assembleRings innerWays nodeMap).filterMap (fun ring =>
    let hp := projectPolygon cosDeg ring bounds scaleMMperM
      (some modelWidthMm) (some modelDepthMm)
    if 3 ≤ hp.length then some hp else Option.none)
  (assembleRings outerWays nodeMap).filterMap (fun ring =>
    let poly := projectPolygon cosDeg ring bounds scaleMMperM
      (some modelWidthMm) (some modelDepthMm)
    if poly.length < 3 then Option.none
    else some ⟨poly,
      if projectedHoles.isEmpty then Option.none else some projectedHoles⟩)

/-- State of the relations loop (roads never change there). -/
structure RelState where
  buildings : List Building
  water : List WaterPoly
  rngIdx : ℕ

/-- One member iteration of the building-relation branch. -/
def relMemberStep (cosDeg : ℚ → ℚ) (pf : String → Option ℚ)
    (pint : String → Option ℤ) (rnd : ℕ → ℚ) (bounds : Bounds)
    (scaleMMperM modelWidthMm modelDepthMm : ℚ) (ways : List OsmWay)
    (nodeMap : ℕ → Option Point) (relTags : Option Tags)
    (st : RelState) (mb : OsmRelMember) : RelState :=
  if mb.mtype = kWay ∧ mb.role = kOuter then
    match findWay ways mb.ref with
    | Option.none => st
    | some w2 =>
      match resolveCoords nodeMap w2.nodes with
      | Option.none => st
      | some coords =>
        if coords.length < 3 then st
        else
          let poly := projectPolygon cosDeg coords bounds scaleMMperM
            (some modelWidthMm) (some modelDepthMm)
          if poly.length < 3 then st
          else
            { st with
              buildings := st.buildings ++
                [⟨poly, buildingHeightMm pf pint (rnd st.rngIdx)
                  (tagMerge relTags w2.tags) scaleMMperM⟩],
              rngIdx := if usesHeightFallback (tagMerge relTags w2.tags)
                then st.rngIdx + 1 else st.rngIdx }
  else st

/-- One iteration of the relations loop of `parseElements`.  (For the
coastline, road and railway kinds the source iterates members but pushes
nothing — only the building kind can add features there.) -/
def relStep (cosDeg : ℚ → ℚ) (pf : String → Option ℚ)
    (pint : String → Option ℤ) (rnd : ℕ → ℚ) (bounds : Bounds)
    (scaleMMperM modelWidthMm modelDepthMm : ℚ) (ways : List OsmWay)
    (nodeMap : ℕ → Option Point) (st : RelState) (r : OsmRelation) :
    RelState :=
  match classify r.tags with
  | FeatureKind.none => st
  | FeatureKind.water =>
    if tagsOrEmpty r.tags kType = some vWaterwayRel then st
    else
      { st with water := st.water ++ (relWaterPolys cosDeg bounds scaleMMperM
          modelWidthMm modelDepthMm ways nodeMap r) }
  | FeatureKind.building =>
    r.members.foldl (relMemberStep cosDeg pf pint rnd bounds scaleMMperM
      modelWidthMm modelDepthMm ways nodeMap r.tags) st
  | _ => st

/-- The tail of `parseElements`: append the projected sea polygons to the
water list and build the scene, or `null` when every feature list is
empty. -/
def assembleScene (cosDeg : ℚ → ℚ) (bounds : Bounds) (sc : ScaleResult)
    (nodeMap : ℕ → Option Point) (st1 : WayState) (st2 : RelState) :
    Option SceneData :=
  let seaPolys := buildSeaPolygons st1.coast nodeMap bounds
  let water2 := st2.water ++ seaPolys.filterMap (fun sea =>
    let poly := projectPolygon cosDeg sea bounds sc.scaleMMperM
      (some sc.modelWidthMm) (some sc.modelDepthMm)
    if 3 ≤ poly.length then some (⟨poly, Option.none⟩ : WaterPoly)
    else Option.none)
  if st2.buildings.isEmpty ∧ water2.isEmpty ∧ st1.roads.isEmpty then
    Option.none
  else some ⟨st2.buildings, water2, st1.roads, sc.modelWidthMm, sc.modelDepthMm⟩

/-- `parseElements(elements, bounds, bearing)`: the full element-to-scene
pipeline.  Builtins (`Math.cos∘deg`, `Math.sqrt`, `parseFloat`,
`parseInt`) are parameters; `rnd k` is the k-th `Math.random()` draw. -/
def parseElements (cosDeg sqrtFn : ℚ → ℚ) (pf : String → Option ℚ)
    (pint : String → Option ℤ) (rnd : ℕ → ℚ) (elements : List OsmElement)
    (bounds : Bounds) (bearing : ℚ) : Option SceneData :=
  let nodeMap := buildNodeMap elements
  let ways := buildWays elements
  let rels := getRelations elements
  let sc := computeScaleWithBearing cosDeg bounds bearing
  let st1 := ways.foldl (wayStep cosDeg sqrtFn pf pint rnd bounds
    sc.scaleMMperM sc.modelWidthMm sc.modelDepthMm nodeMap) ⟨[], [], [], [], 0⟩
  let st2 := rels.foldl (relStep cosDeg pf pint rnd bounds sc.scaleMMperM
    sc.modelWidthMm sc.modelDepthMm ways nodeMap)
    ⟨st1.buildings, st1.water, st1.rngIdx⟩
  assembleScene cosDeg bounds sc nodeMap st1 st2

/-- Forget a building's height (the one randomized output). -/
def eraseHeight (b : Building) : Building := ⟨b.polygon, 0⟩

/-- A scene with all building heights forgotten. -/
def eraseHeightsScene (s : SceneData) : SceneData :=
  ⟨s.buildings.map eraseHeight, s.water, s.roads, s.modelWidthMm,
    s.modelDepthMm⟩

/-- Two way-loop states that agree everywhere except building heights. -/
def WRel (s1 s2 : WayState) : Prop :=
  s1.coast = s2.coast ∧
    s1.buildings.map eraseHeight = s2.buildings.map eraseHeight ∧
    s1.water = s2.water ∧ s1.roads = s2.roads ∧ s1.rngIdx = s2.rngIdx

/-- Two relation-loop states that agree everywhere except building
heights. -/
def RRel (s1 s2 : RelState) : Prop :=
  s1.buildings.map eraseHeight = s2.buildings.map eraseHeight ∧
    s1.water = s2.water ∧ s1.rngIdx = s2.rngIdx

lemma wayStep_rel (cosDeg sqrtFn : ℚ → ℚ) (pf : String → Option ℚ)
    (pint : String → Option ℤ) (r1 r2 : ℕ → ℚ) (bounds : Bounds)
    (scale mW mD : ℚ) (nodeMap : ℕ → Option Point)
    (s1 s2 : WayState) (way : OsmWay) (h : WRel s1 s2) :
    WRel (wayStep cosDeg sqrtFn pf pint r1 bounds scale mW mD nodeMap s1 way)
      (wayStep cosDeg sqrtFn pf pint r2 bounds scale mW mD nodeMap s2 way) := by
  obtain ⟨h1, h2, h3, h4, h5⟩ := h
  unfold wayStep
  cases classify way.tags
  case none => exact ⟨h1, h2, h3, h4, h5⟩
  case coastline => exact ⟨by simp [h1], h2, h3, h4, h5⟩
  case road =>
    cases resolveCoords nodeMap way.nodes with
    | none => exact ⟨h1, h2, h3, h4, h5⟩
    | some coords =>
      dsimp only
      split_ifs
      · exact ⟨h1, h2, h3, h4, h5⟩
      · exact ⟨h1, h2, h3, h4, h5⟩
      · exact ⟨h1, h2, h3, by simp [h4], h5⟩
  case railway =>
    cases resolveCoords nodeMap way.nodes with
    | none => exact ⟨h1, h2, h3, h4, h5⟩
    | some coords =>
      dsimp only
      split_ifs
      · exact ⟨h1, h2, h3, h4, h5⟩
      · exact ⟨h1, h2, h3, h4, h5⟩
      · exact ⟨h1, h2, h3, by simp [h4], h5⟩
  case building =>
    cases resolveCoords nodeMap way.nodes with
    | none => exact ⟨h1, h2, h3, h4, h5⟩
    | some coords =>
      dsimp only
      split_ifs <;>
        first
          | exact ⟨h1, h2, h3, h4, h5⟩
          | exact ⟨h1, by simp [List.map_append, eraseHeight, h2], h3, h4,
              by simp [h5]⟩
  case water =>
    cases resolveCoords nodeMap way.nodes with
    | none => exact ⟨h1, h2, h3, h4, h5⟩
    | some coords =>
      dsimp only
      split_ifs
      · exact ⟨h1, h2, h3, h4, h5⟩
      · exact ⟨h1, h2, h3, h4, h5⟩
      · exact ⟨h1, h2, by simp [h3], h4, h5⟩
      · exact ⟨h1, h2, h3, h4, h5⟩

lemma foldl_wayStep_rel (cosDeg sqrtFn : ℚ → ℚ) (pf : String → Option ℚ)
    (pint : String → Option ℤ) (r1 r2 : ℕ → ℚ) (bounds : Bounds)
    (scale mW mD : ℚ) (nodeMap : ℕ → Option Point) :
    ∀ (ways : List OsmWay) (s1 s2 : WayState), WRel s1 s2 →
      WRel
        (ways.foldl
          (wayStep cosDeg sqrtFn pf pint r1 bounds scale mW mD nodeMap) s1)
        (ways.foldl
          (wayStep cosDeg sqrtFn pf pint r2 bounds scale mW mD nodeMap) s2) := by
  intro ways
  induction ways with
  | nil => intro s1 s2 h; exact h
  | cons w rest ih =>
    intro s1 s2 h
    exact ih _ _ (wayStep_rel cosDeg sqrtFn pf pint r1 r2 bounds scale mW mD
      nodeMap s1 s2 w h)

lemma relMemberStep_rel (cosDeg : ℚ → ℚ) (pf : String → Option ℚ)
    (pint : String → Option ℤ) (r1 r2 : ℕ → ℚ) (bounds : Bounds)
    (scale mW mD : ℚ) (ways : List OsmWay) (nodeMap : ℕ → Option Point)
    (relTags : Option Tags) (s1 s2 : RelState) (mb : OsmRelMember)
    (h : RRel s1 s2) :
    RRel
      (relMemberStep cosDeg pf pint r1 bounds scale mW mD ways nodeMap
        relTags s1 mb)
      (relMemberStep cosDeg pf pint r2 bounds scale mW mD ways nodeMap
        relTags s2 mb) := by
  obtain ⟨h1, h2, h3⟩ := h
  unfold relMemberStep
  split_ifs
  · cases findWay ways mb.ref with
    | none => exact ⟨h1, h2, h3⟩
    | some w2 =>
      dsimp only
      cases resolveCoords nodeMap w2.nodes with
      | none => exact ⟨h1, h2, h3⟩
      | some coords =>
        dsimp only
        split_ifs <;>
          first
            | exact ⟨h1, h2, h3⟩
            | exact ⟨by simp [List.map_append, eraseHeight, h1], h2,
                by simp [h3]⟩
  · exact ⟨h1, h2, h3⟩

lemma foldl_relMemberStep_rel (cosDeg : ℚ → ℚ) (pf : String → Option ℚ)
    (pint : String → Option ℤ) (r1 r2 : ℕ → ℚ) (bounds : Bounds)
    (scale mW mD : ℚ) (ways : List OsmWay) (nodeMap : ℕ → Option Point)
    (relTags : Option Tags) :
    ∀ (members : List OsmRelMember) (s1 s2 : RelState), RRel s1 s2 →
      RRel
        (members.foldl (relMemberStep cosDeg pf pint r1 bounds scale mW mD
          ways nodeMap relTags) s1)
        (members.foldl (relMemberStep cosDeg pf pint r2 bounds scale mW mD
          ways nodeMap relTags) s2) := by
  intro members
  induction members with
  | nil => intro s1 s2 h; exact h
  | cons mb rest ih =>
    intro s1 s2 h
    exact ih _ _ (relMemberStep_rel cosDeg pf pint r1 r2 bounds scale mW mD
      ways nodeMap relTags s1 s2 mb h)

lemma relStep_rel (cosDeg : ℚ → ℚ) (pf : String → Option ℚ)
    (pint : String → Option ℤ) (r1 r2 : ℕ → ℚ) (bounds : Bounds)
    (scale mW mD : ℚ) (ways : List OsmWay) (nodeMap : ℕ → Option Point)
    (s1 s2 : RelState) (r : OsmRelation) (h : RRel s1 s2) :
    RRel
      (relStep cosDeg pf pint r1 bounds scale mW mD ways nodeMap s1 r)
      (relStep cosDeg pf pint r2 bounds scale mW mD ways nodeMap s2 r) := by
  obtain ⟨h1, h2, h3⟩ := h
  unfold relStep
  cases classify r.tags
  case none => exact ⟨h1, h2, h3⟩
  case water =>
    dsimp only
    split_ifs
    · exact ⟨h1, h2, h3⟩
    · exact ⟨h1, by simp [h2], h3⟩
  case building =>
    exact foldl_relMemberStep_rel cosDeg pf pint r1 r2 bounds scale mW mD
      ways nodeMap r.tags r.members s1 s2 ⟨h1, h2, h3⟩
  case coastline => exact ⟨h1, h2, h3⟩
  case road => exact ⟨h1, h2, h3⟩
  case railway => exact ⟨h1, h2, h3⟩

lemma foldl_relStep_rel (cosDeg : ℚ → ℚ) (pf : String → Option ℚ)
    (pint : String → Option ℤ) (r1 r2 : ℕ → ℚ) (bounds : Bounds)
    (scale mW mD : ℚ) (ways : List OsmWay) (nodeMap : ℕ → Option Point) :
    ∀ (rels : List OsmRelation) (s1 s2 : RelState), RRel s1 s2 →
      RRel
        (rels.foldl (relStep cosDeg pf pint r1 bounds scale mW mD ways
          nodeMap) s1)
        (rels.foldl (relStep cosDeg pf pint r2 bounds scale mW mD ways
          nodeMap) s2) := by
  intro rels
  induction rels with
  | nil => intro s1 s2 h; exact h
  | cons r rest ih =>
    intro s1 s2 h
    exact ih _ _ (relStep_rel cosDeg pf pint r1 r2 bounds scale mW mD ways
      nodeMap s1 s2 r h)

lemma isEmpty_of_map_eraseHeight_eq {a b : List Building}
    (h : a.map eraseHeight = b.map eraseHeight) : a.isEmpty = b.isEmpty := by
  cases a <;> cases b <;> simp_all

lemma assembleScene_rel (cosDeg : ℚ → ℚ) (bounds : Bounds) (sc : ScaleResult)
    (nodeMap : ℕ → Option Point) (A B : WayState) (C D : RelState)
    (hcoast : A.coast = B.coast) (hroads : A.roads = B.roads)
    (hb : C.buildings.map eraseHeight = D.buildings.map eraseHeight)
    (hw : C.water = D.water) :
    (assembleScene cosDeg bounds sc nodeMap A C).map eraseHeightsScene
      = (assembleScene cosDeg bounds sc nodeMap B D).map eraseHeightsScene := by
  unfold assembleScene
  dsimp only
  rw [hcoast, hw, hroads, isEmpty_of_map_eraseHeight_eq hb]
  split_ifs
  · rfl
  · simp [eraseHeightsScene, hb]

/-- C8.  Running the pipeline twice on identical input with possibly
different randomness yields identical output everywhere except building
heights; with the randomness fixed the two runs are equal everywhere; and
a building whose tags carry a truthy height or levels value gets a height
independent of the random draw (only the fallback is randomized). -/
theorem parseElements_deterministic_mod_heights (cosDeg sqrtFn : ℚ → ℚ)
    (pf : String → Option ℚ) (pint : String → Option ℤ) (r1 r2 : ℕ → ℚ)
    (elements : List OsmElement) (bounds : Bounds) (bearing : ℚ)
    (tags : Tags) (scale v1 v2 : ℚ) :
    (parseElements cosDeg sqrtFn pf pint r1 elements bounds bearing).map
        eraseHeightsScene
      = (parseElements cosDeg sqrtFn pf pint r2 elements bounds bearing).map
        eraseHeightsScene ∧
    (r1 = r2 →
      parseElements cosDeg sqrtFn pf pint r1 elements bounds bearing
        = parseElements cosDeg sqrtFn pf pint r2 elements bounds bearing) ∧
    (jsTruthy (tags kHeight) = true ∨ jsTruthy (tags kLevels) = true →
      buildingHeightMm pf pint v1 tags scale
        = buildingHeightMm pf pint v2 tags scale) := by
  refine ⟨?_, ?_, ?_⟩
  · have hway := foldl_wayStep_rel cosDeg sqrtFn pf pint r1 r2 bounds
      (computeScaleWithBearing cosDeg bounds bearing).scaleMMperM
      (computeScaleWithBearing cosDeg bounds bearing).modelWidthMm
      (computeScaleWithBearing cosDeg bounds bearing).modelDepthMm
      (buildNodeMap elements) (buildWays elements)
      ⟨[], [], [], [], 0⟩ ⟨[], [], [], [], 0⟩ ⟨rfl, rfl, rfl, rfl, rfl⟩
    obtain ⟨hc, hb, hw, hr, hi⟩ := hway
    have hrel := foldl_relStep_rel cosDeg pf pint r1 r2 bounds
      (computeScaleWithBearing cosDeg bounds bearing).scaleMMperM
      (computeScaleWithBearing cosDeg bounds bearing).modelWidthMm
      (computeScaleWithBearing cosDeg bounds bearing).modelDepthMm
      (buildWays elements) (buildNodeMap elements) (getRelations elements)
      ⟨_, _, _⟩ ⟨_, _, _⟩ ⟨hb, hw, hi⟩
    obtain ⟨hb2, hw2, _⟩ := hrel
    exact assembleScene_rel cosDeg bounds
      (computeScaleWithBearing cosDeg bounds bearing) (buildNodeMap elements)
      _ _ _ _ hc hr hb2 hw2
  · intro hr12
    rw [hr12]
  · intro htag
    unfold buildingHeightMm
    rcases htag with h | h
    · simp [h]
    · by_cases hh : jsTruthy (tags kHeight)
      · simp [hh]
      · simp [hh, h]

/-- Witness for C8 at a concrete one-building element list. -/
theorem parseElements_deterministic_witness :
    (parseElements (fun _ => 1) (fun _ => 0) (fun _ => some 10)
        (fun _ => some 3) (fun _ => 0)
        [OsmElement.node ⟨1, 0, 0⟩] ((0 : ℚ), 0, 1, 1) 0).map
        eraseHeightsScene
      = (parseElements (fun _ => 1) (fun _ => 0) (fun _ => some 10)
        (fun _ => some 3) (fun _ => 1 / 2)
        [OsmElement.node ⟨1, 0, 0⟩] ((0 : ℚ), 0, 1, 1) 0).map
        eraseHeightsScene ∧
    parseElements (fun _ => 1) (fun _ => 0) (fun _ => some 10)
        (fun _ => some 3) (fun _ => 0)
        [OsmElement.node ⟨1, 0, 0⟩] ((0 : ℚ), 0, 1, 1) 0
      = parseElements (fun _ => 1) (fun _ => 0) (fun _ => some 10)
        (fun _ => some 3) (fun _ => 0)
        [OsmElement.node ⟨1, 0, 0⟩] ((0 : ℚ), 0, 1, 1) 0 ∧
    buildingHeightMm (fun _ => some 10) (fun _ => some 3) 0
        (fun k => if k = kHeight then some "10" else Option.none) 1
      = buildingHeightMm (fun _ => some 10) (fun _ => some 3) (1 / 2)
        (fun k => if k = kHeight then some "10" else Option.none) 1 := by
  have h := parseElements_deterministic_mod_heights (fun _ => 1) (fun _ => 0)
    (fun _ => some 10) (fun _ => some 3) (fun _ => 0) (fun _ => 1 / 2)
    [OsmElement.node ⟨1, 0, 0⟩] ((0 : ℚ), 0, 1, 1) 0
    (fun k => if k = kHeight then some "10" else Option.none) 1 0 (1 / 2)
  exact ⟨h.1, rfl, h.2.2 (Or.inl (by decide))⟩

/-- Witness for C9 at a concrete 3-point polyline. -/
theorem simplifyPolyline_endpoints_witness :
    (simplifyPolyline 1 [((0 : ℚ), 0), (1, 0), (1, 1)]).head?
        = [((0 : ℚ), 0), (1, 0), (1, 1)].head? ∧
      (simplifyPolyline 1 [((0 : ℚ), 0), (1, 0), (1, 1)]).getLast?
        = [((0 : ℚ), 0), (1, 0), (1, 1)].getLast? ∧
      simplifyPolyline 1 [((0 : ℚ), 0), (1, 0), (1, 1)]
        = [((0 : ℚ), 0), (1, 0), (1, 1)] := by
  have h := simplifyPolyline_endpoints 1 [((0 : ℚ), 0), (1, 0), (1, 1)]
  exact ⟨h.1, h.2.1, h.2.2 (by decide)⟩

end CityToPrint
